import Mathlib

/- Verification development for the asdfspline curve engine.  The repository
ships only the C binding header (src/ffi/asdfspline.h), so the numerical core
is embedded here following the specification: the generic piecewise cubic
curve with its clamped segment lookup and Horner evaluation, the
shape-preserving (Fritsch-Carlson style) scalar spline and the monotone cubic
spline built on it, the centripetal Kochanek-Bartels builder, and the
composite animation spline.  All definitions are generic over a linear
ordered field; the square-root function used by the centripetal
parametrization and by vector magnitudes is passed as a parameter and is
instantiated with the real square root in the theorems that depend on it. -/

section CurveDefs

variable {K : Type} [LinearOrderedField K] {V : Type} [AddCommGroup V] [Module K V]

/-- Modelled from the spec: a cubic segment is four coefficients over a local
parameter domain [0,1], evaluated by Horner's method (spec 3, 4.1). -/
def hornerEval (seg : V × V × V × V) (s : K) : V :=
  seg.1 + s • (seg.2.1 + s • (seg.2.2.1 + s • seg.2.2.2))

/-- Modelled from the spec: conversion of a (value, value, tangent, tangent)
quadruple at the two endpoints of a segment into Hermite cubic coefficients
(spec 4.2 step 4, 4.3 step 4). -/
def hermite (y0 y1 m0 m1 : V) : V × V × V × V :=
  (y0, m0, 3 • (y1 - y0) - 2 • m0 - m1, m0 + m1 - 2 • (y1 - y0))

/-- Modelled from the spec: a Piecewise Cubic Curve owns an ordered sequence of
cubic segments plus a monotonically increasing global-parameter grid with one
more entry than there are segments (spec 3). -/
structure PiecewiseCubicCurve (K V : Type) where
  segments : List (V × V × V × V)
  grid : List K

/-- Modelled from the spec: the grid invariant — parameter values are strictly
increasing (spec 3). -/
def StrictGrid (g : List K) : Prop := List.Chain' (· < ·) g

/-- Structurally recursive decision procedure for the grid invariant, so that
concrete instances reduce by evaluation. -/
def decStrictGrid : (g : List K) → Decidable (StrictGrid g)
  | [] => isTrue trivial
  | [_] => isTrue (List.chain'_singleton _)
  | a :: b :: l =>
    match inferInstanceAs (Decidable (a < b)), decStrictGrid (b :: l) with
    | isTrue h1, isTrue h2 => isTrue (List.chain'_cons.mpr ⟨h1, h2⟩)
    | isFalse h1, _ => isFalse (fun hc => h1 (List.chain'_cons.mp hc).1)
    | _, isFalse h2 => isFalse (fun hc => h2 (List.chain'_cons.mp hc).2)

instance (g : List K) : Decidable (StrictGrid g) := decStrictGrid g

/-- Modelled from the spec: segment lookup and evaluation — the owning segment
is the last one whose grid start does not exceed the parameter, the parameter
is mapped into the local [0,1] domain by the grid interval extent, and the
cubic is evaluated (spec 4.1). -/
def evalSegs : List (V × V × V × V) → List K → K → V
  | [seg], g0 :: g1 :: _, t => hornerEval seg ((t - g0) / (g1 - g0))
  | seg :: s2 :: rest, g0 :: g1 :: gr, t =>
      if t < g1 then hornerEval seg ((t - g0) / (g1 - g0))
      else evalSegs (s2 :: rest) (g1 :: gr) t
  | _, _, _ => 0

/-- First grid value of a curve (zero for an empty grid). -/
def gridFirst (c : PiecewiseCubicCurve K V) : K := c.grid.headD 0

/-- Last grid value of a curve (zero for an empty grid). -/
def gridLast (c : PiecewiseCubicCurve K V) : K := c.grid.getLastD 0

/-- Modelled from the spec: evaluation never fails — an out-of-range parameter
is clamped to the valid domain before the segment lookup, so evaluation below
the first grid value matches the first grid value and symmetrically at the top
end (spec 4.1, 7, 8). -/
def evaluate (c : PiecewiseCubicCurve K V) (t : K) : V :=
  evalSegs c.segments c.grid (max (gridFirst c) (min (gridLast c) t))

/-- Modelled from the spec: the batch entry point applies the same evaluation
contract per element, preserving input order (spec 4.1). -/
def evaluateBatch (c : PiecewiseCubicCurve K V) (ts : List K) : List V :=
  ts.map (evaluate c)

/-- A segment is nondecreasing over its local [0,1] domain. -/
def MonoSeg (seg : K × K × K × K) : Prop :=
  ∀ s1 s2 : K, 0 ≤ s1 → s1 ≤ s2 → s2 ≤ 1 → hornerEval seg s1 ≤ hornerEval seg s2

/-- A segment is strictly increasing over its local [0,1] domain. -/
def StrictSeg (seg : K × K × K × K) : Prop :=
  ∀ s1 s2 : K, 0 ≤ s1 → s1 < s2 → s2 ≤ 1 → hornerEval seg s1 < hornerEval seg s2

/-- List access as a zero-padded index function, the way the flat caller
arrays of the binding surface are consumed (spec 6). -/
def fnOf (l : List K) : ℕ → K := fun i => l.getD i 0

/-- Modelled from the spec: secant slope between consecutive points
(spec 4.3 step 1). -/
def fcSecant (y g : ℕ → K) (i : ℕ) : K := (y (i + 1) - y i) / (g (i + 1) - g i)

/-- Modelled from the spec: the derived tangent of an interior point is a
harmonic-mean combination of the two adjacent secants, forced to zero whenever
they have opposite signs; the two ends use the one-sided rule taking the
single adjacent secant (spec 4.3 step 2; the endpoint rule is an
implementation choice per spec 9). -/
def fcTangent (y g : ℕ → K) (n i : ℕ) : K :=
  if i = 0 then fcSecant y g 0
  else if n - 1 ≤ i then fcSecant y g (n - 2)
  else if fcSecant y g (i - 1) * fcSecant y g i ≤ 0 then 0
  else 2 * fcSecant y g (i - 1) * fcSecant y g i / (fcSecant y g (i - 1) + fcSecant y g i)

/-- Modelled from the spec: a tangent is clamped so that its magnitude does not
overshoot three times the local secant, the standard monotonicity-preservation
constraint, applied per segment (spec 4.3 step 3). -/
def clampSlope (m d : K) : K := max (-(3 * |d|)) (min m (3 * |d|))

/-- Modelled from the spec: the Hermite coefficients of one spline segment,
with both tangents clamped against the local secant and scaled to the local
parameter domain by the grid interval extent (spec 4.3 steps 3 and 4). -/
def fcSegment (y g m : ℕ → K) (i : ℕ) : K × K × K × K :=
  hermite (y i) (y (i + 1))
    ((g (i + 1) - g i) * clampSlope (m i) (fcSecant y g i))
    ((g (i + 1) - g i) * clampSlope (m (i + 1)) (fcSecant y g i))

/-- Core of the shape-preserving spline construction: one segment per
consecutive pair of points, from a per-point slope assignment (spec 4.3). -/
def fcCurve (values grid : List K) (m : ℕ → K) : PiecewiseCubicCurve K K :=
  ⟨List.ofFn (fun i : Fin (values.length - 1) => fcSegment (fnOf values) (fnOf grid) m i.1),
   grid⟩

/-- Modelled from the spec: construction of the shape-preserving cubic spline
checks array length mismatches, insufficient point counts and grid ordering at
the boundary, reporting failures through the recoverable error channel with a
human-readable message (spec 4.3, 6, 7; asdf_shapepreservingcubicspline in the
header — the closed flag of the binding is not modelled). -/
def asdf_shapepreservingcubicspline (values grid : List K) :
    Except String (PiecewiseCubicCurve K K) :=
  if values.length ≠ grid.length then .error "values and grid must have the same length"
  else if values.length < 2 then .error "at least two values are required"
  else if ¬ StrictGrid grid then .error "grid must be strictly increasing"
  else .ok (fcCurve values grid (fcTangent (fnOf values) (fnOf grid) values.length))

/-- Modelled from the spec: the variant taking explicit per-point slopes, which
replaces the derived tangents but is still clamped per segment
(spec 4.3; asdf_shapepreservingcubicspline_with_slopes in the header). -/
def asdf_shapepreservingcubicspline_with_slopes (values slopes grid : List K) :
    Except String (PiecewiseCubicCurve K K) :=
  if values.length ≠ grid.length then .error "values and grid must have the same length"
  else if slopes.length ≠ values.length then .error "slopes and values must have the same length"
  else if values.length < 2 then .error "at least two values are required"
  else if ¬ StrictGrid grid then .error "grid must be strictly increasing"
  else .ok (fcCurve values grid (fnOf slopes))

/-- Modelled from the spec and the header: a Monotone Cubic Spline is a
Piecewise Cubic Curve over scalars with the extra inverse-lookup capability;
the header exposes the inner curve via asdf_monotonecubic_inner (spec 3). -/
structure MonotoneCubicSpline (K : Type) where
  inner : PiecewiseCubicCurve K K

/-- Modelled from the spec and the header doc comment of MonotoneCubicSpline
(monotonically increasing): construction additionally requires the values
themselves to be strictly increasing along the grid, so that the inverse
lookup is well defined (header line 14, spec 4.3). -/
def asdf_monotonecubic (values grid : List K) : Except String (MonotoneCubicSpline K) :=
  if ¬ StrictGrid values then .error "values must be monotonically increasing"
  else (asdf_shapepreservingcubicspline values grid).map MonotoneCubicSpline.mk

/-- Modelled from the spec: the monotone constructor taking explicit slopes
(asdf_monotonecubic_with_slopes in the header). -/
def asdf_monotonecubic_with_slopes (values slopes grid : List K) :
    Except String (MonotoneCubicSpline K) :=
  if ¬ StrictGrid values then .error "values must be monotonically increasing"
  else (asdf_shapepreservingcubicspline_with_slopes values slopes grid).map MonotoneCubicSpline.mk

/-- Modelled from the spec: the defining property of the result of the inverse
lookup asdf_monotonecubic_get_time — a grid-domain value whose evaluation is
the queried value; monotonicity guarantees it is unique in range (spec 4.3). -/
def GetTimeSol (s : MonotoneCubicSpline K) (v t : K) : Prop :=
  gridFirst s.inner ≤ t ∧ t ≤ gridLast s.inner ∧ evaluate s.inner t = v

/-- Modelled from the spec: the inverse lookup succeeds exactly when a matching
grid-domain value exists, and fails when the queried value lies outside the
overall output range (spec 4.3 error condition, 7d). -/
def GetTimeOk (s : MonotoneCubicSpline K) (v : K) : Prop := ∃ t, GetTimeSol s v t

end CurveDefs

section KBDefs

variable {K : Type} [LinearOrderedField K] {V : Type} [AddCommGroup V] [Module K V]

/-- Structural tabulation of a function into a list, used where the embedding
needs lists that reduce by evaluation: entries f i, f (i+1), ... of length k. -/
def listFnFrom {α : Type} (f : ℕ → α) (i : ℕ) : ℕ → List α
  | 0 => []
  | k + 1 => f i :: listFnFrom f (i + 1) k

/-- Structural tabulation of f 0, ..., f (n-1). -/
def listFn {α : Type} (f : ℕ → α) (n : ℕ) : List α := listFnFrom f 0 n

/-- Modelled from the spec: vertex access with wrap-around for closed curves
(spec 4.2 step 1); outside a closed context indices stay below the length and
the reduction is the identity. -/
def vtx (vertices : List V) (i : ℕ) : V := vertices.getD (i % vertices.length) 0

/-- Modelled from the spec: centripetal parametrization — the knot spacing of a
segment is the square root of the Euclidean chord length between its endpoint
vertices, the chord length being the square root of the squared distance;
a degenerate zero-length interval is special-cased to uniform spacing to
avoid a division by zero (spec 4.2 step 2). -/
def centripetalSpacing (rt : K → K) (sqd : V → V → K) (p q : V) : K :=
  if sqd p q = 0 then 1 else rt (rt (sqd p q))

/-- Modelled from the spec: cumulative sums from an origin; the grid of a
Kochanek-Bartels curve is the cumulative centripetal knot spacing (spec 4.2). -/
def cumsumFrom (a : K) : List K → List K
  | [] => [a]
  | x :: xs => a :: cumsumFrom (a + x) xs

/-- Modelled from the spec: the per-segment centripetal spacings; a closed
curve has one extra wrap-around segment back to the first vertex (spec 4.2). -/
def kbSpacings (rt : K → K) (sqd : V → V → K) (vertices : List V) (closed : Bool) : List K :=
  let ns := if closed then vertices.length else vertices.length - 1
  listFn (fun i => centripetalSpacing rt sqd (vtx vertices i) (vtx vertices (i + 1))) ns

/-- Modelled from the spec: the normalized chord of segment j, the building
block of the Kochanek-Bartels tangent formulas (spec 4.2 step 3). -/
def kbChord (rt : K → K) (sqd : V → V → K) (vertices : List V) (closed : Bool) (j : ℕ) : V :=
  let ns := if closed then vertices.length else vertices.length - 1
  let j2 := j % ns
  (1 / (kbSpacings rt sqd vertices closed).getD j2 1) • (vtx vertices (j2 + 1) - vtx vertices j2)

/-- Modelled from the spec: the outgoing Kochanek-Bartels tangent at a vertex,
blending tension, continuity and bias over the two adjacent normalized chords;
an open end uses the one-sided rule taking the single adjacent chord
(spec 4.2 steps 1 and 3; the endpoint rule is an implementation choice per
spec 9). -/
def kbOutTangent (rt : K → K) (sqd : V → V → K) (vertices : List V)
    (tcb : List (K × K × K)) (closed : Bool) (i : ℕ) : V :=
  let n := vertices.length
  let p := tcb.getD (i % n) (0, 0, 0)
  let prevC := if closed then kbChord rt sqd vertices closed (i + n - 1)
               else kbChord rt sqd vertices closed (i - 1)
  let nextC := kbChord rt sqd vertices closed i
  if closed = false ∧ i = 0 then nextC
  else if closed = false ∧ n - 1 ≤ i then prevC
  else ((1 - p.1) * (1 + p.2.2) * (1 + p.2.1) / 2) • prevC +
       ((1 - p.1) * (1 - p.2.2) * (1 - p.2.1) / 2) • nextC

/-- Modelled from the spec: the incoming Kochanek-Bartels tangent at a vertex
(spec 4.2 step 3). -/
def kbInTangent (rt : K → K) (sqd : V → V → K) (vertices : List V)
    (tcb : List (K × K × K)) (closed : Bool) (i : ℕ) : V :=
  let n := vertices.length
  let p := tcb.getD (i % n) (0, 0, 0)
  let prevC := if closed then kbChord rt sqd vertices closed (i + n - 1)
               else kbChord rt sqd vertices closed (i - 1)
  let nextC := kbChord rt sqd vertices closed i
  if closed = false ∧ i = 0 then nextC
  else if closed = false ∧ n - 1 ≤ i then prevC
  else ((1 - p.1) * (1 + p.2.2) * (1 - p.2.1) / 2) • prevC +
       ((1 - p.1) * (1 - p.2.2) * (1 + p.2.1) / 2) • nextC

/-- Core of the Kochanek-Bartels construction: one Hermite segment per
consecutive vertex pair (plus the wrap-around segment when closed), tangents
scaled by the local grid extent, over the cumulative centripetal grid
(spec 4.2 step 4). -/
def kbCurve (rt : K → K) (sqd : V → V → K) (vertices : List V)
    (tcb : List (K × K × K)) (closed : Bool) : PiecewiseCubicCurve K V :=
  let sp := kbSpacings rt sqd vertices closed
  ⟨List.ofFn (fun i : Fin sp.length =>
      hermite (vtx vertices i.1) (vtx vertices (i.1 + 1))
        (sp.getD i.1 1 • kbOutTangent rt sqd vertices tcb closed i.1)
        (sp.getD i.1 1 • kbInTangent rt sqd vertices tcb closed (i.1 + 1))),
   cumsumFrom 0 sp⟩

/-- Modelled from the spec: the centripetal Kochanek-Bartels builder with its
boundary checks; the binding exposes it once per value dimension
(asdf_centripetalkochanekbartelsspline2 and 3 in the header), which this
generic definition covers through the value type (spec 4.2, 6, 7, 9). -/
def asdf_centripetalkochanekbartelsspline (rt : K → K) (sqd : V → V → K)
    (vertices : List V) (tcb : List (K × K × K)) (closed : Bool) :
    Except String (PiecewiseCubicCurve K V) :=
  if vertices.length < 2 then .error "at least two vertices are required"
  else if tcb.length ≠ vertices.length then .error "tcb and vertices must have the same length"
  else if ¬ StrictGrid (cumsumFrom 0 (kbSpacings rt sqd vertices closed)) then
    .error "vertices produce a degenerate grid"
  else .ok (kbCurve rt sqd vertices tcb closed)

/-- Modelled from the spec: the Animation Spline owns a geometric position
curve and a monotone spline mapping wall-clock time to the geometric
parameter domain (spec 3, 4.4). -/
structure AsdfSpline (K V : Type) where
  path : PiecewiseCubicCurve K V
  timemap : MonotoneCubicSpline K

/-- Modelled from the spec: the local curve speed at a vertex — the magnitude
of the geometric tangent dP/du there, the magnitude of a vector being the
square root of its squared distance from the origin (spec 4.4 step 3). -/
def animVertexSpeed (rt : K → K) (sqd : V → V → K) (vertices : List V)
    (tcb : List (K × K × K)) (closed : Bool) (i : ℕ) : K :=
  rt (sqd (kbOutTangent rt sqd vertices tcb closed i) 0)

/-- Modelled from the spec: the slope assigned to the time map at a vertex —
for a vertex with a target speed it is the requested speed divided by the
local curve speed, so that the derivative of the geometric parameter with
respect to time multiplied by the local curve speed equals the request;
an unconstrained vertex gets the default shape-preserving tangent
(spec 4.4 steps 2 and 3). -/
def animSlope (rt : K → K) (sqd : V → V → K) (vertices : List V)
    (tcb : List (K × K × K)) (closed : Bool) (times : List K)
    (speeds : List (Option K)) (i : ℕ) : K :=
  match speeds.getD i none with
  | some s => s / animVertexSpeed rt sqd vertices tcb closed i
  | none => fcTangent (fnOf (kbCurve rt sqd vertices tcb closed).grid) (fnOf times)
      times.length i

/-- Modelled from the spec: infeasibility of a requested speed at one vertex —
the required time-map slope would be negative, or the local curve speed
vanishes for a nonzero request, or the slope would overshoot the
monotonicity-preserving bound of three times an adjacent time-map secant, so
no slope satisfies both the request and monotonicity (spec 4.4 step 3, 7c). -/
def animBad (rt : K → K) (sqd : V → V → K) (vertices : List V)
    (tcb : List (K × K × K)) (closed : Bool) (times : List K)
    (speeds : List (Option K)) (i : ℕ) : Bool :=
  let u := fnOf (kbCurve rt sqd vertices tcb closed).grid
  let tf := fnOf times
  let slope := animSlope rt sqd vertices tcb closed times speeds i
  match speeds.getD i none with
  | none => false
  | some s =>
    decide (animVertexSpeed rt sqd vertices tcb closed i = 0 ∧ s ≠ 0) ||
    decide (slope < 0) ||
    (decide (0 < i) && decide (3 * fcSecant u tf (i - 1) < slope)) ||
    (decide (i < times.length - 1) && decide (3 * fcSecant u tf i < slope))

/-- Modelled from the spec: the animation spline builder — it builds the
geometric curve, checks the wall-clock times and target speeds at the
boundary, solves the per-vertex time-map slopes, fails when a requested speed
is infeasible, and otherwise assembles the monotone time map over the
geometric parameter values (spec 4.4, 6, 7; asdf_asdfspline in the header). -/
def asdf_asdfspline (rt : K → K) (sqd : V → V → K) (positions : List V)
    (times : List K) (speeds : List (Option K)) (tcb : List (K × K × K))
    (closed : Bool) : Except String (AsdfSpline K V) :=
  match asdf_centripetalkochanekbartelsspline rt sqd positions tcb closed with
  | .error e => .error e
  | .ok path =>
    if times.length ≠ path.grid.length then
      .error "times and positions must have matching lengths"
    else if speeds.length ≠ times.length then
      .error "speeds and times must have matching lengths"
    else if ¬ StrictGrid times then .error "times must be strictly increasing"
    else if (List.range times.length).any
        (animBad rt sqd positions tcb closed times speeds) then
      .error "target speed is not achievable"
    else .ok ⟨path,
      ⟨fcCurve path.grid times (animSlope rt sqd positions tcb closed times speeds)⟩⟩

/-- Modelled from the spec: evaluation of the animation spline composes the
time-map lookup with the geometric curve lookup (spec 4.4). -/
def animEvaluate (s : AsdfSpline K V) (t : K) : V :=
  evaluate s.path (evaluate s.timemap.inner t)

/-- Payload of a successful fallible construction, with a fallback default. -/
def okOr {α : Type} (e : Except String α) (d : α) : α := e.toOption.getD d

/-- Squared Euclidean distance on three-dimensional real vectors, the magnitude
input of the centripetal parametrization (spec 4.2, 9). -/
def sqDist3 (p q : ℝ × ℝ × ℝ) : ℝ :=
  (p.1 - q.1) ^ 2 + (p.2.1 - q.2.1) ^ 2 + (p.2.2 - q.2.2) ^ 2

/-- The grid invariant of every constructed curve: strictly increasing grid of
at least two parameter values, one more than there are segments (spec 3). -/
def GridInvariant (c : PiecewiseCubicCurve K V) : Prop :=
  StrictGrid c.grid ∧ 2 ≤ c.grid.length ∧ c.grid.length = c.segments.length + 1

/-- The curve built by the shape-preserving constructor on success. -/
def spBuilt (values grid : List K) : PiecewiseCubicCurve K K :=
  okOr (asdf_shapepreservingcubicspline values grid) ⟨[], []⟩

/-- The curve built by the shape-preserving with-slopes constructor on success. -/
def spSlopeBuilt (values slopes grid : List K) : PiecewiseCubicCurve K K :=
  okOr (asdf_shapepreservingcubicspline_with_slopes values slopes grid) ⟨[], []⟩

/-- The spline built by the monotone cubic constructor on success. -/
def mcBuilt (values grid : List K) : MonotoneCubicSpline K :=
  okOr (asdf_monotonecubic values grid) ⟨⟨[], []⟩⟩

/-- The spline built by the monotone cubic with-slopes constructor on success. -/
def mcSlopeBuilt (values slopes grid : List K) : MonotoneCubicSpline K :=
  okOr (asdf_monotonecubic_with_slopes values slopes grid) ⟨⟨[], []⟩⟩

/-- The curve built by the Kochanek-Bartels constructor on success. -/
def kbBuilt (rt : K → K) (sqd : V → V → K) (vertices : List V)
    (tcb : List (K × K × K)) (closed : Bool) : PiecewiseCubicCurve K V :=
  okOr (asdf_centripetalkochanekbartelsspline rt sqd vertices tcb closed) ⟨[], []⟩

/-- The composite built by the animation spline constructor on success. -/
def animBuilt (rt : K → K) (sqd : V → V → K) (positions : List V)
    (times : List K) (speeds : List (Option K)) (tcb : List (K × K × K))
    (closed : Bool) : AsdfSpline K V :=
  okOr (asdf_asdfspline rt sqd positions times speeds tcb closed) ⟨⟨[], []⟩, ⟨⟨[], []⟩⟩⟩

end KBDefs

section CoreLemmas

variable {K : Type} [LinearOrderedField K] {V : Type} [AddCommGroup V] [Module K V]

theorem evalSegs_nil (grid : List K) (t : K) : evalSegs ([] : List (V × V × V × V)) grid t = 0 :=
  rfl

theorem evalSegs_single (s : V × V × V × V) (g0 g1 : K) (gr : List K) (t : K) :
    evalSegs [s] (g0 :: g1 :: gr) t = hornerEval s ((t - g0) / (g1 - g0)) := rfl

theorem evalSegs_cons₂ (s s2 : V × V × V × V) (r2 : List (V × V × V × V))
    (g0 g1 : K) (gr : List K) (t : K) :
    evalSegs (s :: s2 :: r2) (g0 :: g1 :: gr) t =
      if t < g1 then hornerEval s ((t - g0) / (g1 - g0))
      else evalSegs (s2 :: r2) (g1 :: gr) t := rfl

theorem hornerEval_zero (seg : V × V × V × V) : hornerEval seg (0 : K) = seg.1 := by
  simp [hornerEval]

theorem hermite_eval_zero (y0 y1 m0 m1 : V) :
    hornerEval (hermite y0 y1 m0 m1) (0 : K) = y0 := by
  simp [hermite, hornerEval]

theorem hermite_eval_one (y0 y1 m0 m1 : V) :
    hornerEval (hermite y0 y1 m0 m1) (1 : K) = y1 := by
  simp only [hermite, hornerEval, one_smul]
  abel

theorem hermiteK (y0 y1 m0 m1 s : K) :
    hornerEval (hermite y0 y1 m0 m1) s
      = y0 + s * (m0 + s * ((3 * (y1 - y0) - 2 * m0 - m1)
          + s * (m0 + m1 - 2 * (y1 - y0)))) := by
  simp only [hermite, hornerEval, smul_eq_mul, nsmul_eq_mul, Nat.cast_ofNat]
  try ring

theorem strictGrid_pairwise {g : List K} (h : StrictGrid g) : g.Pairwise (· < ·) :=
  List.chain'_iff_pairwise.mp h

theorem strictGrid_get_lt {g : List K} (h : StrictGrid g) {i j : ℕ} (hij : i < j)
    (hj : j < g.length) :
    g.get ⟨i, Nat.lt_trans hij hj⟩ < g.get ⟨j, hj⟩ :=
  List.pairwise_iff_get.mp (strictGrid_pairwise h) ⟨i, Nat.lt_trans hij hj⟩ ⟨j, hj⟩ hij

theorem chainLt_head_le_get {a : K} {l : List K} (h : List.Chain' (· < ·) (a :: l))
    (i : ℕ) (hi : i < (a :: l).length) : a ≤ (a :: l).get ⟨i, hi⟩ := by
  cases i with
  | zero => simp
  | succ k =>
    have := strictGrid_get_lt (g := a :: l) h (Nat.succ_pos k) hi
    simpa using le_of_lt this

theorem chainLt_head_le_getLastD {a : K} {l : List K}
    (h : List.Chain' (· < ·) (a :: l)) (d : K) : a ≤ (a :: l).getLastD d := by
  induction l generalizing a d with
  | nil => simp [List.getLastD_cons, List.getLastD_nil]
  | cons b l2 ih =>
    have hab : a < b := (List.chain'_cons.mp h).1
    have htail := (List.chain'_cons.mp h).2
    rw [List.getLastD_cons]
    exact le_trans (le_of_lt hab) (by simpa [List.getLastD_cons] using ih htail a)

theorem clamp_of_mem {g0 gN t : K} (h0 : g0 ≤ t) (hN : t ≤ gN) :
    max g0 (min gN t) = t := by
  rw [min_eq_right hN, max_eq_right h0]

theorem evaluate_of_mem {c : PiecewiseCubicCurve K V} {t : K}
    (h0 : gridFirst c ≤ t) (hN : t ≤ gridLast c) :
    evaluate c t = evalSegs c.segments c.grid t := by
  rw [evaluate, clamp_of_mem h0 hN]

theorem evalSegs_left_end {s : V × V × V × V} {rest : List (V × V × V × V)}
    {g0 g1 : K} {gr : List K} (h01 : g0 < g1) :
    evalSegs (s :: rest) (g0 :: g1 :: gr) g0 = hornerEval s (0 : K) := by
  cases rest with
  | nil => simp [evalSegs_single]
  | cons s2 r2 => simp [evalSegs_cons₂, h01]

theorem evalSegs_right_end (segs : List (V × V × V × V)) :
    ∀ (grid : List K) (d : K) (hne : segs ≠ []),
      grid.length = segs.length + 1 → List.Chain' (· < ·) grid →
      evalSegs segs grid (grid.getLastD d) = hornerEval (segs.getLast hne) (1 : K) := by
  induction segs with
  | nil => intro _ _ hne _ _; exact absurd rfl hne
  | cons s rest ih =>
    intro grid d hne hlen hg
    rcases grid with _ | ⟨g0, _ | ⟨g1, gr⟩⟩
    · simp at hlen
    · simp at hlen
    cases rest with
    | nil =>
      rcases gr with _ | ⟨g2, gr2⟩
      · have h01 : g0 < g1 := (List.chain'_cons.mp hg).1
        rw [List.getLastD_cons, List.getLastD_cons, List.getLastD_nil, evalSegs_single,
          div_self (ne_of_gt (sub_pos.mpr h01))]
        simp [List.getLast]
      · simp at hlen
    | cons s2 r2 =>
      rcases gr with _ | ⟨g2, gr2⟩
      · simp at hlen
      have htail : List.Chain' (· < ·) (g1 :: g2 :: gr2) := (List.chain'_cons.mp hg).2
      have hble : g1 ≤ (g1 :: g2 :: gr2).getLastD g0 := chainLt_head_le_getLastD htail g0
      rw [List.getLastD_cons, evalSegs_cons₂, if_neg (not_lt.mpr hble)]
      have := ih (g1 :: g2 :: gr2) g0 (by simp) (by simpa using hlen) htail
      rw [this]
      simp [List.getLast]

theorem evalSegs_mono (segs : List (K × K × K × K)) :
    ∀ (grid : List K) (t1 t2 d : K),
      grid.length = segs.length + 1 → List.Chain' (· < ·) grid →
      (∀ s ∈ segs, MonoSeg s) →
      List.Chain' (fun a b => hornerEval b (0 : K) = hornerEval a (1 : K)) segs →
      grid.headD d ≤ t1 → t1 ≤ t2 → t2 ≤ grid.getLastD d →
      evalSegs segs grid t1 ≤ evalSegs segs grid t2 := by
  induction segs with
  | nil => intro grid t1 t2 d _ _ _ _ _ _ _; rw [evalSegs_nil, evalSegs_nil]
  | cons s rest ih =>
    intro grid t1 t2 d hlen hg hm hag h1 h12 h2
    rcases grid with _ | ⟨g0, _ | ⟨g1, gr⟩⟩
    · simp at hlen
    · simp at hlen
    have h01 : g0 < g1 := (List.chain'_cons.mp hg).1
    have hden : (0 : K) < g1 - g0 := sub_pos.mpr h01
    have hh1 : g0 ≤ t1 := by simpa using h1
    cases rest with
    | nil =>
      rcases gr with _ | ⟨g2, gr2⟩
      · have h2g : t2 ≤ g1 := by
          simpa [List.getLastD_cons, List.getLastD_nil] using h2
        rw [evalSegs_single, evalSegs_single]
        refine hm s (by simp) _ _ ?_ ?_ ?_
        · exact div_nonneg (by linarith) (le_of_lt hden)
        · exact (div_le_div_right hden).mpr (by linarith)
        · exact (div_le_one hden).mpr (by linarith)
      · simp at hlen
    | cons s2 r2 =>
      rcases gr with _ | ⟨g2, gr2⟩
      · simp at hlen
      have hgt : List.Chain' (· < ·) (g1 :: g2 :: gr2) := (List.chain'_cons.mp hg).2
      have hmt : ∀ x ∈ (s2 :: r2), MonoSeg x := fun x hx => hm x (List.mem_cons_of_mem _ hx)
      have hagt := (List.chain'_cons.mp hag).2
      have hagree : hornerEval s2 (0 : K) = hornerEval s (1 : K) := (List.chain'_cons.mp hag).1
      have hlent : (g1 :: g2 :: gr2).length = (s2 :: r2).length + 1 := by
        simp at hlen ⊢; omega
      have h2g : t2 ≤ (g1 :: g2 :: gr2).getLastD g0 := by
        simpa [List.getLastD_cons] using h2
      by_cases hc2 : t2 < g1
      · have hc1 : t1 < g1 := lt_of_le_of_lt h12 hc2
        rw [evalSegs_cons₂, if_pos hc1, evalSegs_cons₂, if_pos hc2]
        refine hm s (by simp) _ _ ?_ ?_ ?_
        · exact div_nonneg (by linarith) (le_of_lt hden)
        · exact (div_le_div_right hden).mpr (by linarith)
        · exact (div_le_one hden).mpr (by linarith)
      · by_cases hc1 : t1 < g1
        · rw [evalSegs_cons₂, if_pos hc1, evalSegs_cons₂, if_neg hc2]
          have step1 : hornerEval s ((t1 - g0) / (g1 - g0)) ≤ hornerEval s (1 : K) := by
            refine hm s (by simp) _ _ ?_ ?_ le_rfl
            · exact div_nonneg (by linarith) (le_of_lt hden)
            · exact (div_le_one hden).mpr (by linarith)
          have step2 : hornerEval s (1 : K) = evalSegs (s2 :: r2) (g1 :: g2 :: gr2) g1 := by
            rw [evalSegs_left_end (List.chain'_cons.mp hgt).1]
            exact hagree.symm
          have step3 : evalSegs (s2 :: r2) (g1 :: g2 :: gr2) g1 ≤
              evalSegs (s2 :: r2) (g1 :: g2 :: gr2) t2 :=
            ih (g1 :: g2 :: gr2) g1 t2 g0 hlent hgt hmt hagt (by simp)
              (le_of_not_lt hc2) h2g
          exact le_trans (step2 ▸ step1) step3
        · rw [evalSegs_cons₂, if_neg hc1, evalSegs_cons₂, if_neg hc2]
          exact ih (g1 :: g2 :: gr2) t1 t2 g0 hlent hgt hmt hagt
            (by simpa using le_of_not_lt hc1) h12 h2g

theorem evalSegs_strict (segs : List (K × K × K × K)) :
    ∀ (grid : List K) (t1 t2 d : K),
      grid.length = segs.length + 1 → List.Chain' (· < ·) grid →
      (∀ s ∈ segs, MonoSeg s) → (∀ s ∈ segs, StrictSeg s) →
      List.Chain' (fun a b => hornerEval b (0 : K) = hornerEval a (1 : K)) segs →
      grid.headD d ≤ t1 → t1 < t2 → t2 ≤ grid.getLastD d →
      evalSegs segs grid t1 < evalSegs segs grid t2 := by
  induction segs with
  | nil =>
    intro grid t1 t2 d hlen _ _ _ _ h1 h12 h2
    rcases grid with _ | ⟨g, _ | ⟨g2, gr2⟩⟩
    · simp at hlen
    · simp at h1 h2
      exact absurd h12 (not_lt.mpr (le_trans h2 h1))
    · simp at hlen
  | cons s rest ih =>
    intro grid t1 t2 d hlen hg hm hs hag h1 h12 h2
    rcases grid with _ | ⟨g0, _ | ⟨g1, gr⟩⟩
    · simp at hlen
    · simp at hlen
    have h01 : g0 < g1 := (List.chain'_cons.mp hg).1
    have hden : (0 : K) < g1 - g0 := sub_pos.mpr h01
    have hh1 : g0 ≤ t1 := by simpa using h1
    cases rest with
    | nil =>
      rcases gr with _ | ⟨g2, gr2⟩
      · have h2g : t2 ≤ g1 := by
          simpa [List.getLastD_cons, List.getLastD_nil] using h2
        rw [evalSegs_single, evalSegs_single]
        refine hs s (by simp) _ _ ?_ ?_ ?_
        · exact div_nonneg (by linarith) (le_of_lt hden)
        · exact (div_lt_div_right hden).mpr (by linarith)
        · exact (div_le_one hden).mpr (by linarith)
      · simp at hlen
    | cons s2 r2 =>
      rcases gr with _ | ⟨g2, gr2⟩
      · simp at hlen
      have hgt : List.Chain' (· < ·) (g1 :: g2 :: gr2) := (List.chain'_cons.mp hg).2
      have hmt : ∀ x ∈ (s2 :: r2), MonoSeg x := fun x hx => hm x (List.mem_cons_of_mem _ hx)
      have hst : ∀ x ∈ (s2 :: r2), StrictSeg x := fun x hx => hs x (List.mem_cons_of_mem _ hx)
      have hagt := (List.chain'_cons.mp hag).2
      have hagree : hornerEval s2 (0 : K) = hornerEval s (1 : K) := (List.chain'_cons.mp hag).1
      have hlent : (g1 :: g2 :: gr2).length = (s2 :: r2).length + 1 := by
        simp at hlen ⊢; omega
      have h2g : t2 ≤ (g1 :: g2 :: gr2).getLastD g0 := by
        simpa [List.getLastD_cons] using h2
      by_cases hc2 : t2 < g1
      · have hc1 : t1 < g1 := lt_trans h12 hc2
        rw [evalSegs_cons₂, if_pos hc1, evalSegs_cons₂, if_pos hc2]
        refine hs s (by simp) _ _ ?_ ?_ ?_
        · exact div_nonneg (by linarith) (le_of_lt hden)
        · exact (div_lt_div_right hden).mpr (by linarith)
        · exact (div_le_one hden).mpr (by linarith)
      · by_cases hc1 : t1 < g1
        · rw [evalSegs_cons₂, if_pos hc1, evalSegs_cons₂, if_neg hc2]
          have step1 : hornerEval s ((t1 - g0) / (g1 - g0)) < hornerEval s (1 : K) := by
            refine hs s (by simp) _ _ ?_ ?_ le_rfl
            · exact div_nonneg (by linarith) (le_of_lt hden)
            · exact (div_lt_one hden).mpr (by linarith)
          have step2 : hornerEval s (1 : K) = evalSegs (s2 :: r2) (g1 :: g2 :: gr2) g1 := by
            rw [evalSegs_left_end (List.chain'_cons.mp hgt).1]
            exact hagree.symm
          have step3 : evalSegs (s2 :: r2) (g1 :: g2 :: gr2) g1 ≤
              evalSegs (s2 :: r2) (g1 :: g2 :: gr2) t2 :=
            evalSegs_mono (s2 :: r2) (g1 :: g2 :: gr2) g1 t2 g0 hlent hgt hmt hagt
              (by simp) (le_of_not_lt hc2) h2g
          exact lt_of_lt_of_le (step2 ▸ step1) step3
        · rw [evalSegs_cons₂, if_neg hc1, evalSegs_cons₂, if_neg hc2]
          exact ih (g1 :: g2 :: gr2) t1 t2 g0 hlent hgt hmt hst hagt
            (by simpa using le_of_not_lt hc1) h12 h2g

theorem evalSegs_knot (segs : List (V × V × V × V)) :
    ∀ (grid : List K) (i : ℕ) (hig : i < grid.length) (hi : i < segs.length),
      List.Chain' (· < ·) grid → grid.length = segs.length + 1 →
      evalSegs segs grid (grid.get ⟨i, hig⟩) = hornerEval (segs.get ⟨i, hi⟩) (0 : K) := by
  induction segs with
  | nil => intro _ i _ hi _ _; exact absurd hi (Nat.not_lt_zero i)
  | cons s rest ih =>
    intro grid i hig hi hg hlen
    rcases grid with _ | ⟨g0, _ | ⟨g1, gr⟩⟩
    · simp at hlen
    · simp at hlen
    have h01 : g0 < g1 := (List.chain'_cons.mp hg).1
    cases i with
    | zero =>
      have hget : (g0 :: g1 :: gr).get ⟨0, hig⟩ = g0 := rfl
      rw [hget, evalSegs_left_end h01]
      rfl
    | succ j =>
      cases rest with
      | nil => exact absurd hi (by simp)
      | cons s2 r2 =>
        have hgt : List.Chain' (· < ·) (g1 :: gr) := (List.chain'_cons.mp hg).2
        have hjg : j < (g1 :: gr).length := by simpa using hig
        have hjs : j < (s2 :: r2).length := by simpa using hi
        have hget : (g0 :: g1 :: gr).get ⟨j + 1, hig⟩ = (g1 :: gr).get ⟨j, hjg⟩ := rfl
        have hble : g1 ≤ (g1 :: gr).get ⟨j, hjg⟩ := chainLt_head_le_get hgt j hjg
        rw [hget, evalSegs_cons₂, if_neg (not_lt.mpr hble)]
        rw [ih (g1 :: gr) j hjg hjs hgt (by simp at hlen ⊢; omega)]
        rfl

theorem cube_lt_cube {x y : K} (h : x < y) : x ^ 3 < y ^ 3 :=
  Odd.strictMono_pow (R := K) ⟨1, by norm_num⟩ h

theorem cube_le_cube {x y : K} (h : x ≤ y) : x ^ 3 ≤ y ^ 3 := by
  rcases eq_or_lt_of_le h with rfl | hlt
  · exact le_rfl
  · exact le_of_lt (cube_lt_cube hlt)

theorem D00_nonneg {u v : K} (h0 : 0 ≤ u) (huv : u ≤ v) (h1 : v ≤ 1) :
    0 ≤ 3 * (v ^ 2 - u ^ 2) - 2 * (v ^ 3 - u ^ 3) := by
  have hv0 : 0 ≤ v := le_trans h0 huv
  have hu1 : u ≤ 1 := le_trans huv h1
  nlinarith [mul_nonneg (mul_nonneg (sub_nonneg.mpr huv) h0) (sub_nonneg.mpr h1),
    mul_nonneg (mul_nonneg (sub_nonneg.mpr huv) hv0) (sub_nonneg.mpr hu1),
    mul_nonneg (mul_nonneg (sub_nonneg.mpr huv) h0) (sub_nonneg.mpr hu1),
    mul_nonneg (mul_nonneg (sub_nonneg.mpr huv) hv0) (sub_nonneg.mpr h1)]

theorem D00_pos {u v : K} (h0 : 0 ≤ u) (huv : u < v) (h1 : v ≤ 1) :
    0 < 3 * (v ^ 2 - u ^ 2) - 2 * (v ^ 3 - u ^ 3) := by
  have hv : 0 < v := lt_of_le_of_lt h0 huv
  have hu1 : u < 1 := lt_of_lt_of_le huv h1
  nlinarith [mul_pos (mul_pos (sub_pos.mpr huv) hv) (sub_pos.mpr hu1),
    mul_nonneg (mul_nonneg (le_of_lt (sub_pos.mpr huv)) h0) (sub_nonneg.mpr h1),
    mul_nonneg (mul_nonneg (le_of_lt (sub_pos.mpr huv)) h0) (sub_nonneg.mpr (le_of_lt hu1)),
    mul_nonneg (mul_nonneg (le_of_lt (sub_pos.mpr huv)) (le_of_lt hv)) (sub_nonneg.mpr h1)]

theorem hermiteSeg_mono {y0 y1 m0 m1 : K} (hy : y0 ≤ y1) (hm0 : 0 ≤ m0) (hm1 : 0 ≤ m1)
    (h30 : m0 ≤ 3 * (y1 - y0)) (h31 : m1 ≤ 3 * (y1 - y0)) :
    MonoSeg (hermite y0 y1 m0 m1) := by
  intro u v hu huv hv
  rw [hermiteK, hermiteK]
  rcases eq_or_lt_of_le hy with heq | hlt
  · have hm0e : m0 = 0 := le_antisymm (by rw [← heq] at h30; linarith) hm0
    have hm1e : m1 = 0 := le_antisymm (by rw [← heq] at h31; linarith) hm1
    rw [hm0e, hm1e, ← heq]
    exact le_of_eq (by ring)
  · have hΔ : (0 : K) < y1 - y0 := sub_pos.mpr hlt
    set A := y0 + u * (m0 + u * ((3 * (y1 - y0) - 2 * m0 - m1)
      + u * (m0 + m1 - 2 * (y1 - y0)))) with hAdef
    set B := y0 + v * (m0 + v * ((3 * (y1 - y0) - 2 * m0 - m1)
      + v * (m0 + m1 - 2 * (y1 - y0)))) with hBdef
    have key : 18 * (y1 - y0) * (B - A) =
        2 * ((3 * (y1 - y0) - m0) * (3 * (y1 - y0) - m1)) * (3 * (v ^ 2 - u ^ 2) - 2 * (v ^ 3 - u ^ 3))
        + 2 * (m0 * (3 * (y1 - y0) - m1)) * ((1 - u) ^ 3 - (1 - v) ^ 3)
        + 2 * ((3 * (y1 - y0) - m0) * m1) * (v ^ 3 - u ^ 3)
        + (m0 * m1) * ((2 * v - 1) ^ 3 - (2 * u - 1) ^ 3) := by
      rw [hAdef, hBdef]; ring
    have t1 : (0 : K) ≤ 2 * ((3 * (y1 - y0) - m0) * (3 * (y1 - y0) - m1)) *
        (3 * (v ^ 2 - u ^ 2) - 2 * (v ^ 3 - u ^ 3)) :=
      mul_nonneg (mul_nonneg (by norm_num) (mul_nonneg (by linarith) (by linarith)))
        (D00_nonneg hu huv hv)
    have t2 : (0 : K) ≤ 2 * (m0 * (3 * (y1 - y0) - m1)) * ((1 - u) ^ 3 - (1 - v) ^ 3) :=
      mul_nonneg (mul_nonneg (by norm_num) (mul_nonneg hm0 (by linarith)))
        (sub_nonneg.mpr (cube_le_cube (by linarith)))
    have t3 : (0 : K) ≤ 2 * ((3 * (y1 - y0) - m0) * m1) * (v ^ 3 - u ^ 3) :=
      mul_nonneg (mul_nonneg (by norm_num) (mul_nonneg (by linarith) hm1))
        (sub_nonneg.mpr (cube_le_cube huv))
    have t4 : (0 : K) ≤ (m0 * m1) * ((2 * v - 1) ^ 3 - (2 * u - 1) ^ 3) :=
      mul_nonneg (mul_nonneg hm0 hm1) (sub_nonneg.mpr (cube_le_cube (by linarith)))
    have hprod : (0 : K) ≤ 18 * (y1 - y0) * (B - A) := by
      rw [key]; linarith
    by_contra hlt2
    push_neg at hlt2
    have hneg : 18 * (y1 - y0) * (B - A) < 0 :=
      mul_neg_of_pos_of_neg (by linarith) (by linarith)
    linarith

theorem hermiteSeg_strict {y0 y1 m0 m1 : K} (hy : y0 < y1) (hm0 : 0 ≤ m0) (hm1 : 0 ≤ m1)
    (h30 : m0 ≤ 3 * (y1 - y0)) (h31 : m1 ≤ 3 * (y1 - y0)) :
    StrictSeg (hermite y0 y1 m0 m1) := by
  intro u v hu huv hv
  rw [hermiteK, hermiteK]
  have hΔ : (0 : K) < y1 - y0 := sub_pos.mpr hy
  set A := y0 + u * (m0 + u * ((3 * (y1 - y0) - 2 * m0 - m1)
    + u * (m0 + m1 - 2 * (y1 - y0)))) with hAdef
  set B := y0 + v * (m0 + v * ((3 * (y1 - y0) - 2 * m0 - m1)
    + v * (m0 + m1 - 2 * (y1 - y0)))) with hBdef
  have key : 18 * (y1 - y0) * (B - A) =
      2 * ((3 * (y1 - y0) - m0) * (3 * (y1 - y0) - m1)) * (3 * (v ^ 2 - u ^ 2) - 2 * (v ^ 3 - u ^ 3))
      + 2 * (m0 * (3 * (y1 - y0) - m1)) * ((1 - u) ^ 3 - (1 - v) ^ 3)
      + 2 * ((3 * (y1 - y0) - m0) * m1) * (v ^ 3 - u ^ 3)
      + (m0 * m1) * ((2 * v - 1) ^ 3 - (2 * u - 1) ^ 3) := by
    rw [hAdef, hBdef]; ring
  have d00 := D00_pos hu huv hv
  have d30 : (0 : K) < (1 - u) ^ 3 - (1 - v) ^ 3 :=
    sub_pos.mpr (cube_lt_cube (by linarith))
  have d03 : (0 : K) < v ^ 3 - u ^ 3 := sub_pos.mpr (cube_lt_cube huv)
  have d33 : (0 : K) < (2 * v - 1) ^ 3 - (2 * u - 1) ^ 3 :=
    sub_pos.mpr (cube_lt_cube (by linarith))
  have n1 : (0 : K) ≤ ((3 * (y1 - y0) - m0) * (3 * (y1 - y0) - m1)) *
      (3 * (v ^ 2 - u ^ 2) - 2 * (v ^ 3 - u ^ 3)) :=
    mul_nonneg (mul_nonneg (by linarith) (by linarith)) d00.le
  have n2 : (0 : K) ≤ (m0 * (3 * (y1 - y0) - m1)) * ((1 - u) ^ 3 - (1 - v) ^ 3) :=
    mul_nonneg (mul_nonneg hm0 (by linarith)) d30.le
  have n3 : (0 : K) ≤ ((3 * (y1 - y0) - m0) * m1) * (v ^ 3 - u ^ 3) :=
    mul_nonneg (mul_nonneg (by linarith) hm1) d03.le
  have n4 : (0 : K) ≤ (m0 * m1) * ((2 * v - 1) ^ 3 - (2 * u - 1) ^ 3) :=
    mul_nonneg (mul_nonneg hm0 hm1) d33.le
  have hfin : (0 : K) < 18 * (y1 - y0) * (B - A) → A < B := by
    intro hpos
    by_contra hba
    push_neg at hba
    have : 18 * (y1 - y0) * (B - A) ≤ 0 :=
      mul_nonpos_of_nonneg_of_nonpos (by linarith) (by linarith)
    linarith
  apply hfin
  rw [key]
  rcases eq_or_lt_of_le h30 with he0 | hl0
  · rcases eq_or_lt_of_le h31 with he1 | hl1
    · have hm0p : (0 : K) < m0 := by rw [he0]; linarith
      have hm1p : (0 : K) < m1 := by rw [he1]; linarith
      have p4 : (0 : K) < (m0 * m1) * ((2 * v - 1) ^ 3 - (2 * u - 1) ^ 3) :=
        mul_pos (mul_pos hm0p hm1p) d33
      linarith
    · have hm0p : (0 : K) < m0 := by rw [he0]; linarith
      have p2 : (0 : K) < (m0 * (3 * (y1 - y0) - m1)) * ((1 - u) ^ 3 - (1 - v) ^ 3) :=
        mul_pos (mul_pos hm0p (by linarith)) d30
      linarith
  · rcases eq_or_lt_of_le h31 with he1 | hl1
    · have hm1p : (0 : K) < m1 := by rw [he1]; linarith
      have p3 : (0 : K) < ((3 * (y1 - y0) - m0) * m1) * (v ^ 3 - u ^ 3) :=
        mul_pos (mul_pos (by linarith) hm1p) d03
      linarith
    · have p1 : (0 : K) < ((3 * (y1 - y0) - m0) * (3 * (y1 - y0) - m1)) *
          (3 * (v ^ 2 - u ^ 2) - 2 * (v ^ 3 - u ^ 3)) :=
        mul_pos (mul_pos (by linarith) (by linarith)) d00
      linarith

theorem clampSlope_mem {w d : K} (hw : 0 ≤ w) (hd : 0 < d) :
    0 ≤ clampSlope w d ∧ clampSlope w d ≤ 3 * d := by
  unfold clampSlope
  rw [abs_of_pos hd]
  constructor
  · exact le_max_of_le_right (le_min hw (by positivity))
  · exact max_le (by linarith) (min_le_right _ _)

theorem fcSegment_mono_strict {y g m : ℕ → K} {i : ℕ}
    (hg : g i < g (i + 1)) (hy : y i < y (i + 1))
    (hm0 : 0 ≤ m i) (hm1 : 0 ≤ m (i + 1)) :
    MonoSeg (fcSegment y g m i) ∧ StrictSeg (fcSegment y g m i) := by
  have hh : (0 : K) < g (i + 1) - g i := sub_pos.mpr hg
  have hΔ : (0 : K) < y (i + 1) - y i := sub_pos.mpr hy
  have hδ : (0 : K) < fcSecant y g i := div_pos hΔ hh
  have hscale : (g (i + 1) - g i) * (3 * fcSecant y g i) = 3 * (y (i + 1) - y i) := by
    rw [fcSecant]
    field_simp
  have hM0 : 0 ≤ (g (i + 1) - g i) * clampSlope (m i) (fcSecant y g i) :=
    mul_nonneg hh.le (clampSlope_mem hm0 hδ).1
  have hM1 : 0 ≤ (g (i + 1) - g i) * clampSlope (m (i + 1)) (fcSecant y g i) :=
    mul_nonneg hh.le (clampSlope_mem hm1 hδ).1
  have hM0b : (g (i + 1) - g i) * clampSlope (m i) (fcSecant y g i)
      ≤ 3 * (y (i + 1) - y i) := by
    rw [← hscale]
    exact mul_le_mul_of_nonneg_left (clampSlope_mem hm0 hδ).2 hh.le
  have hM1b : (g (i + 1) - g i) * clampSlope (m (i + 1)) (fcSecant y g i)
      ≤ 3 * (y (i + 1) - y i) := by
    rw [← hscale]
    exact mul_le_mul_of_nonneg_left (clampSlope_mem hm1 hδ).2 hh.le
  exact ⟨hermiteSeg_mono hy.le hM0 hM1 hM0b hM1b,
    hermiteSeg_strict hy hM0 hM1 hM0b hM1b⟩

end CoreLemmas

section BuilderLemmas

variable {K : Type} [LinearOrderedField K] {V : Type} [AddCommGroup V] [Module K V]

theorem isOk_exists {α : Type} {e : Except String α} (h : e.isOk = true) :
    ∃ a, e = .ok a := by
  cases e with
  | error m => simp [Except.isOk, Except.toBool] at h
  | ok a => exact ⟨a, rfl⟩

theorem okOr_ok {α : Type} {e : Except String α} {a : α} (h : e = .ok a) (d : α) :
    okOr e d = a := by
  rw [h]; rfl

theorem sp_ok_elim {values grid : List K} {c : PiecewiseCubicCurve K K}
    (h : asdf_shapepreservingcubicspline values grid = .ok c) :
    values.length = grid.length ∧ 2 ≤ values.length ∧ StrictGrid grid ∧
      c = fcCurve values grid (fcTangent (fnOf values) (fnOf grid) values.length) := by
  unfold asdf_shapepreservingcubicspline at h
  split_ifs at h with h1 h2 h3
  injection h with h4
  exact ⟨not_ne_iff.mp h1, not_lt.mp h2, h3, h4.symm⟩

theorem sp_ok_intro {values grid : List K} (h2 : values.length = grid.length)
    (h3 : 2 ≤ values.length) (h4 : StrictGrid grid) :
    asdf_shapepreservingcubicspline values grid =
      .ok (fcCurve values grid (fcTangent (fnOf values) (fnOf grid) values.length)) := by
  unfold asdf_shapepreservingcubicspline
  rw [if_neg (not_ne_iff.mpr h2), if_neg (not_lt.mpr h3), if_neg (not_not_intro h4)]

theorem mc_ok_elim {values grid : List K} {s : MonotoneCubicSpline K}
    (h : asdf_monotonecubic values grid = .ok s) :
    List.Chain' (· < ·) values ∧ values.length = grid.length ∧ 2 ≤ values.length ∧
      StrictGrid grid ∧
      s.inner = fcCurve values grid (fcTangent (fnOf values) (fnOf grid) values.length) := by
  unfold asdf_monotonecubic at h
  split_ifs at h with h1
  cases hsp : asdf_shapepreservingcubicspline values grid with
  | error m => rw [hsp] at h; exact Except.noConfusion h
  | ok c =>
    rw [hsp] at h
    injection h with h4
    obtain ⟨hl, hn, hg, hc⟩ := sp_ok_elim hsp
    refine ⟨h1, hl, hn, hg, ?_⟩
    rw [← h4]
    exact congrArg MonotoneCubicSpline.inner (congrArg MonotoneCubicSpline.mk hc)

theorem mc_ok_intro {values grid : List K} (h1 : StrictGrid values)
    (h2 : values.length = grid.length) (h3 : 2 ≤ values.length) (h4 : StrictGrid grid) :
    asdf_monotonecubic values grid =
      .ok ⟨fcCurve values grid (fcTangent (fnOf values) (fnOf grid) values.length)⟩ := by
  unfold asdf_monotonecubic
  rw [if_neg (not_not_intro h1), sp_ok_intro h2 h3 h4]
  rfl

theorem fnOf_get {l : List K} {i : ℕ} (hi : i < l.length) : fnOf l i = l.get ⟨i, hi⟩ := by
  show l.getD i 0 = l.get ⟨i, hi⟩
  rw [List.getD_eq_getElem l 0 hi, List.get_eq_getElem]

theorem fc_secant_pos {values grid : List K} (hv : List.Chain' (· < ·) values)
    (hg : StrictGrid grid) (hlen : values.length = grid.length) {k : ℕ}
    (hk : k + 1 < values.length) :
    0 < fcSecant (fnOf values) (fnOf grid) k := by
  have hkv : k < values.length := Nat.lt_of_succ_lt hk
  have hkg1 : k + 1 < grid.length := hlen ▸ hk
  have hkg : k < grid.length := Nat.lt_of_succ_lt hkg1
  have hv2 : values.get ⟨k, hkv⟩ < values.get ⟨k + 1, hk⟩ :=
    strictGrid_get_lt (g := values) hv (Nat.lt_succ_self k) hk
  have hg2 : grid.get ⟨k, hkg⟩ < grid.get ⟨k + 1, hkg1⟩ :=
    strictGrid_get_lt hg (Nat.lt_succ_self k) hkg1
  rw [fcSecant, fnOf_get hk, fnOf_get hkv, fnOf_get hkg1, fnOf_get hkg]
  exact div_pos (sub_pos.mpr hv2) (sub_pos.mpr hg2)

theorem fcTangent_nonneg {values grid : List K} (hv : List.Chain' (· < ·) values)
    (hg : StrictGrid grid) (hlen : values.length = grid.length)
    (hn : 2 ≤ values.length) (i : ℕ) :
    0 ≤ fcTangent (fnOf values) (fnOf grid) values.length i := by
  unfold fcTangent
  split_ifs with h0 hl hsgn
  · exact (fc_secant_pos hv hg hlen (by omega)).le
  · exact (fc_secant_pos hv hg hlen (by omega)).le
  · exact le_rfl
  · have ha : 0 < fcSecant (fnOf values) (fnOf grid) (i - 1) :=
      fc_secant_pos hv hg hlen (k := i - 1) (by omega)
    have hb : 0 < fcSecant (fnOf values) (fnOf grid) i :=
      fc_secant_pos hv hg hlen (k := i) (by omega)
    exact le_of_lt (div_pos (mul_pos (mul_pos two_pos ha) hb) (by linarith))

theorem headD_eq_get {l : List K} (h : 0 < l.length) : l.headD 0 = l.get ⟨0, h⟩ := by
  rcases l with _ | ⟨a, l⟩
  · simp at h
  · rfl

theorem clamp_bounds {g : List K} (hg : List.Chain' (· < ·) g) (hne : g ≠ []) (t : K) :
    g.headD 0 ≤ max (g.headD 0) (min (g.getLastD 0) t) ∧
      max (g.headD 0) (min (g.getLastD 0) t) ≤ g.getLastD 0 := by
  rcases g with _ | ⟨a, l⟩
  · exact absurd rfl hne
  refine ⟨le_max_left _ _, ?_⟩
  have hal : a ≤ (a :: l).getLastD 0 := chainLt_head_le_getLastD hg 0
  exact max_le hal (min_le_left _ _)

theorem fcSegment_eval_zero (y g m : ℕ → K) (i : ℕ) :
    hornerEval (fcSegment y g m i) (0 : K) = y i := hermite_eval_zero _ _ _ _

theorem fcSegment_eval_one (y g m : ℕ → K) (i : ℕ) :
    hornerEval (fcSegment y g m i) (1 : K) = y (i + 1) := hermite_eval_one _ _ _ _

theorem fcCurve_segments (values grid : List K) (m : ℕ → K) :
    (fcCurve values grid m).segments =
      List.ofFn (fun i : Fin (values.length - 1) =>
        fcSegment (fnOf values) (fnOf grid) m i.1) := rfl

theorem fcCurve_grid (values grid : List K) (m : ℕ → K) :
    (fcCurve values grid m).grid = grid := rfl

theorem fcCurve_gridFirst (values grid : List K) (m : ℕ → K) :
    gridFirst (fcCurve values grid m) = grid.headD 0 := rfl

theorem fcCurve_gridLast (values grid : List K) (m : ℕ → K) :
    gridLast (fcCurve values grid m) = grid.getLastD 0 := rfl

theorem fcCurve_segments_length (values grid : List K) (m : ℕ → K) :
    (fcCurve values grid m).segments.length = values.length - 1 := by
  rw [fcCurve_segments, List.length_ofFn]

theorem fcCurve_seg_get {values grid : List K} {m : ℕ → K} {j : ℕ}
    (hj : j < (fcCurve values grid m).segments.length) :
    (fcCurve values grid m).segments.get ⟨j, hj⟩ =
      fcSegment (fnOf values) (fnOf grid) m j :=
  List.get_ofFn (fun i : Fin (values.length - 1) =>
    fcSegment (fnOf values) (fnOf grid) m i.1) ⟨j, hj⟩

theorem fcCurve_segs_facts {values grid : List K} {m : ℕ → K}
    (hv : List.Chain' (· < ·) values) (hg : StrictGrid grid)
    (hlen : values.length = grid.length) (hm : ∀ i, 0 ≤ m i) :
    (∀ s ∈ (fcCurve values grid m).segments, MonoSeg s) ∧
      (∀ s ∈ (fcCurve values grid m).segments, StrictSeg s) := by
  have hboth : ∀ i : Fin (values.length - 1),
      MonoSeg (fcSegment (fnOf values) (fnOf grid) m i.1) ∧
        StrictSeg (fcSegment (fnOf values) (fnOf grid) m i.1) := by
    intro i
    have hival : i.1 < values.length - 1 := i.2
    have hi1 : i.1 + 1 < values.length := by omega
    have hi0 : i.1 < values.length := by omega
    have hgi1 : i.1 + 1 < grid.length := hlen ▸ hi1
    have hgi0 : i.1 < grid.length := hlen ▸ hi0
    have hgi : fnOf grid i.1 < fnOf grid (i.1 + 1) := by
      rw [fnOf_get hgi0, fnOf_get hgi1]
      exact strictGrid_get_lt hg (Nat.lt_succ_self _) hgi1
    have hyi : fnOf values i.1 < fnOf values (i.1 + 1) := by
      rw [fnOf_get hi0, fnOf_get hi1]
      exact strictGrid_get_lt (g := values) hv (Nat.lt_succ_self _) hi1
    exact fcSegment_mono_strict hgi hyi (hm _) (hm _)
  rw [fcCurve_segments] at *
  constructor <;> intro s hs <;>
    obtain ⟨i, hif⟩ := (List.mem_ofFn _ s).mp hs
  · rw [← hif]; exact (hboth i).1
  · rw [← hif]; exact (hboth i).2

theorem fcCurve_agree (values grid : List K) (m : ℕ → K) :
    List.Chain' (fun a b => hornerEval b (0 : K) = hornerEval a (1 : K))
      (fcCurve values grid m).segments := by
  rw [fcCurve_segments]
  apply List.chain'_iff_get.mpr
  intro i h
  rw [List.get_ofFn, List.get_ofFn, fcSegment_eval_zero, fcSegment_eval_one]
  rfl

theorem fcCurve_grid_inv {values grid : List K} (m : ℕ → K) (hg : StrictGrid grid)
    (hlen : values.length = grid.length) (hn : 2 ≤ values.length) :
    GridInvariant (fcCurve values grid m) := by
  refine ⟨hg, ?_, ?_⟩
  · rw [fcCurve_grid]; omega
  · rw [fcCurve_grid, fcCurve_segments_length]; omega

theorem fcCurve_eval_mono {values grid : List K} {m : ℕ → K}
    (hv : List.Chain' (· < ·) values) (hg : StrictGrid grid)
    (hlen : values.length = grid.length) (hn : 2 ≤ values.length)
    (hm : ∀ i, 0 ≤ m i) (t1 t2 : K) (h12 : t1 ≤ t2) :
    evaluate (fcCurve values grid m) t1 ≤ evaluate (fcCurve values grid m) t2 := by
  have hfacts := fcCurve_segs_facts hv hg hlen hm
  have hag := fcCurve_agree values grid m
  have hlen2 : grid.length = (fcCurve values grid m).segments.length + 1 := by
    rw [fcCurve_segments_length]; omega
  have hne : grid ≠ [] := by
    intro he; rw [he] at hlen; simp only [List.length_nil] at hlen; omega
  rw [evaluate, evaluate]
  refine evalSegs_mono _ _ _ _ 0 hlen2 hg hfacts.1 hag ?_ ?_ ?_
  · exact le_max_left _ _
  · exact max_le_max le_rfl (min_le_min le_rfl h12)
  · exact (clamp_bounds hg hne t2).2

theorem fcCurve_eval_strict {values grid : List K} {m : ℕ → K}
    (hv : List.Chain' (· < ·) values) (hg : StrictGrid grid)
    (hlen : values.length = grid.length) (hn : 2 ≤ values.length)
    (hm : ∀ i, 0 ≤ m i) (t1 t2 : K)
    (ht1 : gridFirst (fcCurve values grid m) ≤ t1) (h12 : t1 < t2)
    (ht2 : t2 ≤ gridLast (fcCurve values grid m)) :
    evaluate (fcCurve values grid m) t1 < evaluate (fcCurve values grid m) t2 := by
  have hfacts := fcCurve_segs_facts hv hg hlen hm
  have hag := fcCurve_agree values grid m
  have hlen2 : grid.length = (fcCurve values grid m).segments.length + 1 := by
    rw [fcCurve_segments_length]; omega
  rw [evaluate_of_mem ht1 (le_trans h12.le ht2),
    evaluate_of_mem (le_trans ht1 h12.le) ht2]
  exact evalSegs_strict _ _ _ _ 0 hlen2 hg hfacts.1 hfacts.2 hag ht1 h12 ht2

theorem fcCurve_first_le_last {grid : List K} (hg : StrictGrid grid) (hne : grid ≠ [])
    {values : List K} {m : ℕ → K} :
    gridFirst (fcCurve values grid m) ≤ gridLast (fcCurve values grid m) := by
  rcases grid with _ | ⟨a, l⟩
  · exact absurd rfl hne
  · exact chainLt_head_le_getLastD hg 0

theorem fcCurve_eval_first {values grid : List K} {m : ℕ → K}
    (hg : StrictGrid grid) (hlen : values.length = grid.length)
    (hn : 2 ≤ values.length) :
    evaluate (fcCurve values grid m) (gridFirst (fcCurve values grid m))
      = fnOf values 0 := by
  have hne : grid ≠ [] := by
    intro he; rw [he] at hlen; simp only [List.length_nil] at hlen; omega
  have hlen2 : grid.length = (fcCurve values grid m).segments.length + 1 := by
    rw [fcCurve_segments_length]; omega
  rw [evaluate_of_mem le_rfl (fcCurve_first_le_last hg hne), fcCurve_grid]
  have h0g : 0 < grid.length := by omega
  have h0s : 0 < (fcCurve values grid m).segments.length := by
    rw [fcCurve_segments_length]; omega
  have hfirst : gridFirst (fcCurve values grid m) = grid.get ⟨0, h0g⟩ :=
    headD_eq_get h0g
  rw [hfirst,
    evalSegs_knot (fcCurve values grid m).segments grid 0 h0g h0s hg hlen2,
    fcCurve_seg_get h0s, fcSegment_eval_zero]

theorem fcCurve_eval_last {values grid : List K} {m : ℕ → K}
    (hg : StrictGrid grid) (hlen : values.length = grid.length)
    (hn : 2 ≤ values.length) :
    evaluate (fcCurve values grid m) (gridLast (fcCurve values grid m))
      = fnOf values (values.length - 1) := by
  have hne : grid ≠ [] := by
    intro he; rw [he] at hlen; simp only [List.length_nil] at hlen; omega
  have hlen2 : grid.length = (fcCurve values grid m).segments.length + 1 := by
    rw [fcCurve_segments_length]; omega
  have hne2 : (fcCurve values grid m).segments ≠ [] := by
    intro he
    have := congrArg List.length he
    rw [fcCurve_segments_length] at this
    simp only [List.length_nil] at this
    omega
  rw [evaluate_of_mem (fcCurve_first_le_last hg hne) le_rfl, fcCurve_grid,
    fcCurve_gridLast]
  rw [evalSegs_right_end (fcCurve values grid m).segments grid 0 hne2 hlen2 hg]
  have hpos : 0 < (fcCurve values grid m).segments.length :=
    List.length_pos.mpr hne2
  have hsub : (fcCurve values grid m).segments.length - 1 <
      (fcCurve values grid m).segments.length := Nat.sub_lt hpos Nat.one_pos
  have hlast : (fcCurve values grid m).segments.getLast hne2 =
      fcSegment (fnOf values) (fnOf grid) m
        ((fcCurve values grid m).segments.length - 1) := by
    rw [← List.get_length_sub_one hsub]
    exact fcCurve_seg_get hsub
  rw [hlast, fcSegment_eval_one]
  apply congrArg (fnOf values)
  rw [fcCurve_segments_length]
  omega

theorem getLastD_swap (a : K) (l : List K) (d1 d2 : K) :
    (a :: l).getLastD d1 = (a :: l).getLastD d2 := by
  rw [List.getLastD_cons, List.getLastD_cons]

theorem chainLt_get_le_getLastD :
    ∀ {l : List K}, List.Chain' (· < ·) l → ∀ {i : ℕ} (hi : i < l.length) (d : K),
      l.get ⟨i, hi⟩ ≤ l.getLastD d := by
  intro l
  induction l with
  | nil => intro _ i hi _; simp at hi
  | cons a tl ih =>
    intro h i hi d
    cases i with
    | zero => exact chainLt_head_le_getLastD h d
    | succ j =>
      have hj : j < tl.length := by simpa using hi
      rcases tl with _ | ⟨b, tl2⟩
      · simp at hj
      · rw [List.getLastD_cons]
        exact ih h.tail hj a

theorem get_last_eq_getLastD {l : List K} (hne : l ≠ [])
    (hi : l.length - 1 < l.length) : l.get ⟨l.length - 1, hi⟩ = l.getLastD 0 := by
  rcases l with _ | ⟨a, tl⟩
  · exact absurd rfl hne
  · rw [List.get_length_sub_one, List.getLast_eq_getLastD, List.getLastD_cons]

theorem fcCurve_evaluate_idem {values grid : List K} {m : ℕ → K}
    (hg : StrictGrid grid) (hne : grid ≠ []) (t : K) :
    evaluate (fcCurve values grid m)
        (max (gridFirst (fcCurve values grid m))
          (min (gridLast (fcCurve values grid m)) t))
      = evaluate (fcCurve values grid m) t := by
  have hcb := clamp_bounds hg hne t
  rw [evaluate, evaluate]
  congr 1
  exact clamp_of_mem hcb.1 hcb.2

theorem fcCurve_range {values grid : List K} {m : ℕ → K}
    (hv : List.Chain' (· < ·) values) (hg : StrictGrid grid)
    (hlen : values.length = grid.length) (hn : 2 ≤ values.length)
    (hm : ∀ i, 0 ≤ m i) (t : K) :
    fnOf values 0 ≤ evaluate (fcCurve values grid m) t ∧
      evaluate (fcCurve values grid m) t ≤ fnOf values (values.length - 1) := by
  have hne : grid ≠ [] := by
    intro he; rw [he] at hlen; simp only [List.length_nil] at hlen; omega
  have hcb := clamp_bounds hg hne t
  rw [← @fcCurve_evaluate_idem K _ values grid m hg hne t]
  constructor
  · rw [← fcCurve_eval_first (m := m) hg hlen hn]
    exact fcCurve_eval_mono hv hg hlen hn hm _ _ hcb.1
  · rw [← fcCurve_eval_last (m := m) hg hlen hn]
    exact fcCurve_eval_mono hv hg hlen hn hm _ _ hcb.2

theorem fcCurve_inj {values grid : List K} {m : ℕ → K}
    (hv : List.Chain' (· < ·) values) (hg : StrictGrid grid)
    (hlen : values.length = grid.length) (hn : 2 ≤ values.length)
    (hm : ∀ i, 0 ≤ m i) {t u : K}
    (ht1 : gridFirst (fcCurve values grid m) ≤ t)
    (ht2 : t ≤ gridLast (fcCurve values grid m))
    (hu1 : gridFirst (fcCurve values grid m) ≤ u)
    (hu2 : u ≤ gridLast (fcCurve values grid m))
    (heq : evaluate (fcCurve values grid m) u = evaluate (fcCurve values grid m) t) :
    u = t := by
  rcases lt_trichotomy u t with hlt | he | hgt
  · exact absurd heq (ne_of_lt (fcCurve_eval_strict hv hg hlen hn hm u t hu1 hlt ht2))
  · exact he
  · exact absurd heq.symm
      (ne_of_lt (fcCurve_eval_strict hv hg hlen hn hm t u ht1 hgt hu2))

end BuilderLemmas

section ScalarClaims

variable {K : Type} [LinearOrderedField K]

theorem mcBuilt_facts {values grid : List K}
    (h : (asdf_monotonecubic values grid).isOk = true) :
    List.Chain' (· < ·) values ∧ values.length = grid.length ∧ 2 ≤ values.length ∧
      StrictGrid grid ∧
      (mcBuilt values grid).inner =
        fcCurve values grid (fcTangent (fnOf values) (fnOf grid) values.length) := by
  obtain ⟨s, hs⟩ := isOk_exists h
  obtain ⟨hv, hlen, hn, hg, hinner⟩ := mc_ok_elim hs
  refine ⟨hv, hlen, hn, hg, ?_⟩
  unfold mcBuilt
  rw [okOr_ok hs]
  exact hinner

/-- C1: for every Monotone Cubic Spline successfully built from a strictly
increasing grid and non-decreasing values, evaluation is monotone — for all
parameters t1 and t2 in the grid domain with t1 < t2, the evaluation at t1 is
at most the evaluation at t2.  (Successful construction requires the values to
be strictly increasing, which subsumes the non-decreasing hypothesis.) -/
theorem C1_monotone_cubic_evaluate_monotone (values grid : List K)
    (h : (asdf_monotonecubic values grid).isOk = true) :
    ∀ t1 t2 : K, gridFirst (mcBuilt values grid).inner ≤ t1 → t1 < t2 →
      t2 ≤ gridLast (mcBuilt values grid).inner →
      evaluate (mcBuilt values grid).inner t1 ≤ evaluate (mcBuilt values grid).inner t2 := by
  obtain ⟨hv, hlen, hn, hg, hinner⟩ := mcBuilt_facts h
  rw [hinner]
  intro t1 t2 _ h12 _
  exact fcCurve_eval_mono hv hg hlen hn (fcTangent_nonneg hv hg hlen hn) _ _ h12.le

/-- Witness for C1 at a concrete spline over the rationals. -/
theorem C1_witness :
    evaluate (mcBuilt (K := ℚ) [0, 1] [0, 1]).inner 0 ≤
      evaluate (mcBuilt (K := ℚ) [0, 1] [0, 1]).inner 1 :=
  C1_monotone_cubic_evaluate_monotone [0, 1] [0, 1] (by decide) 0 1 (by decide)
    (by decide) (by decide)

/-- C3: for every curve, evaluation never fails and clamps — for every
parameter strictly below the first grid value the result equals the evaluation
at the first grid value, and symmetrically above the last grid value. -/
theorem C3_evaluate_clamps {K V : Type} [LinearOrderedField K] [AddCommGroup V]
    [Module K V] (c : PiecewiseCubicCurve K V) :
    (∀ t : K, t < gridFirst c → evaluate c t = evaluate c (gridFirst c)) ∧
      (∀ t : K, gridLast c < t → evaluate c t = evaluate c (gridLast c)) := by
  constructor
  · intro t ht
    rw [evaluate, evaluate]
    congr 1
    rcases le_total t (gridLast c) with h1 | h1
    · rw [min_eq_right h1, max_eq_left ht.le]
      rcases le_total (gridFirst c) (gridLast c) with h2 | h2
      · rw [min_eq_right h2, max_self]
      · rw [min_eq_left h2, max_eq_left h2]
    · rw [min_eq_left h1, max_eq_left (le_trans h1 ht.le)]
      rcases le_total (gridFirst c) (gridLast c) with h2 | h2
      · rw [min_eq_right h2, max_self]
      · rw [min_eq_left h2, max_eq_left h2]
  · intro t ht
    rw [evaluate, evaluate]
    congr 1
    rw [min_eq_left ht.le, min_self]

/-- Witness for C3 at a concrete curve over the rationals. -/
theorem C3_witness :
    evaluate (⟨[((0 : ℚ), 0, 0, 0)], [0, 1]⟩ : PiecewiseCubicCurve ℚ ℚ) (-1) =
        evaluate (⟨[((0 : ℚ), 0, 0, 0)], [0, 1]⟩ : PiecewiseCubicCurve ℚ ℚ)
          (gridFirst (⟨[((0 : ℚ), 0, 0, 0)], [0, 1]⟩ : PiecewiseCubicCurve ℚ ℚ)) :=
  (C3_evaluate_clamps (⟨[((0 : ℚ), 0, 0, 0)], [0, 1]⟩ : PiecewiseCubicCurve ℚ ℚ)).1
    (-1) (by decide)

/-- C4: for every Monotone Cubic Spline and every parameter t inside the grid
domain, the inverse lookup round-trips — t itself satisfies the defining
property of get_time at the value evaluate(t), and every grid-domain parameter
satisfying that property equals t, so the inverse of evaluate(t) is exactly t. -/
theorem C4_get_time_round_trip (values grid : List K)
    (h : (asdf_monotonecubic values grid).isOk = true) :
    ∀ t : K, gridFirst (mcBuilt values grid).inner ≤ t →
      t ≤ gridLast (mcBuilt values grid).inner →
      GetTimeSol (mcBuilt values grid) (evaluate (mcBuilt values grid).inner t) t ∧
        (∀ u : K, GetTimeSol (mcBuilt values grid)
          (evaluate (mcBuilt values grid).inner t) u → u = t) := by
  obtain ⟨hv, hlen, hn, hg, hinner⟩ := mcBuilt_facts h
  intro t ht1 ht2
  refine ⟨⟨ht1, ht2, rfl⟩, ?_⟩
  intro u hu
  obtain ⟨hu1, hu2, hue⟩ := hu
  rw [hinner] at ht1 ht2 hu1 hu2 hue
  exact fcCurve_inj hv hg hlen hn (fcTangent_nonneg hv hg hlen hn) ht1 ht2 hu1 hu2 hue

/-- Witness for C4 at a concrete spline and interior parameter. -/
theorem C4_witness :
    GetTimeSol (mcBuilt (K := ℚ) [0, 1] [0, 1])
        (evaluate (mcBuilt (K := ℚ) [0, 1] [0, 1]).inner 1) 1 ∧
      (∀ u : ℚ, GetTimeSol (mcBuilt (K := ℚ) [0, 1] [0, 1])
        (evaluate (mcBuilt (K := ℚ) [0, 1] [0, 1]).inner 1) u → u = 1) :=
  C4_get_time_round_trip [0, 1] [0, 1] (by decide) 1 (by decide) (by decide)

theorem eq_consec_not_chain {values : List K}
    (h : ∃ i, i + 1 < values.length ∧ values.getD i 0 = values.getD (i + 1) 0) :
    ¬ List.Chain' (· < ·) values := by
  obtain ⟨i, hi, heq⟩ := h
  intro hc
  have hlt := strictGrid_get_lt (g := values) hc (Nat.lt_succ_self i) hi
  have h1 : values.getD i 0 = values.get ⟨i, Nat.lt_of_succ_lt hi⟩ :=
    fnOf_get (Nat.lt_of_succ_lt hi)
  have h2 : values.getD (i + 1) 0 = values.get ⟨i + 1, hi⟩ := fnOf_get hi
  rw [h1, h2] at heq
  exact absurd heq (ne_of_lt hlt)

/-- C10: construction of a Monotone Cubic Spline (with or without explicit
slopes) requires strictly increasing values — whenever two consecutive values
are equal, construction fails with an error and produces no handle. -/
theorem C10_monotonecubic_requires_strict_values :
    (∀ values grid : List K,
      (∃ i, i + 1 < values.length ∧ values.getD i 0 = values.getD (i + 1) 0) →
      ∃ m, asdf_monotonecubic values grid = .error m ∧ m ≠ "") ∧
    (∀ values slopes grid : List K,
      (∃ i, i + 1 < values.length ∧ values.getD i 0 = values.getD (i + 1) 0) →
      ∃ m, asdf_monotonecubic_with_slopes values slopes grid = .error m ∧ m ≠ "") := by
  constructor
  · intro values grid hbad
    unfold asdf_monotonecubic
    rw [if_pos (show ¬ StrictGrid values from eq_consec_not_chain hbad)]
    exact ⟨_, rfl, by decide⟩
  · intro values slopes grid hbad
    unfold asdf_monotonecubic_with_slopes
    rw [if_pos (show ¬ StrictGrid values from eq_consec_not_chain hbad)]
    exact ⟨_, rfl, by decide⟩

/-- Witness for C10 at concrete equal consecutive values. -/
theorem C10_witness :
    (∃ m, asdf_monotonecubic (K := ℚ) [0, 0] [0, 1] = .error m ∧ m ≠ "") ∧
      (∃ m, asdf_monotonecubic_with_slopes (K := ℚ) [0, 0] [1, 1] [0, 1]
        = .error m ∧ m ≠ "") :=
  ⟨(C10_monotonecubic_requires_strict_values (K := ℚ)).1 [0, 0] [0, 1]
      ⟨0, by decide, by decide⟩,
    (C10_monotonecubic_requires_strict_values (K := ℚ)).2 [0, 0] [1, 1] [0, 1]
      ⟨0, by decide, by decide⟩⟩

end ScalarClaims

section KBLemmas

variable {K : Type} [LinearOrderedField K] {V : Type} [AddCommGroup V] [Module K V]

theorem sp_slopes_ok_elim {values slopes grid : List K} {c : PiecewiseCubicCurve K K}
    (h : asdf_shapepreservingcubicspline_with_slopes values slopes grid = .ok c) :
    values.length = grid.length ∧ slopes.length = values.length ∧
      2 ≤ values.length ∧ StrictGrid grid ∧ c = fcCurve values grid (fnOf slopes) := by
  unfold asdf_shapepreservingcubicspline_with_slopes at h
  split_ifs at h with h1 h2 h3 h4
  injection h with h5
  exact ⟨not_ne_iff.mp h1, not_ne_iff.mp h2, not_lt.mp h3, h4, h5.symm⟩

theorem mc_slopes_ok_elim {values slopes grid : List K} {s : MonotoneCubicSpline K}
    (h : asdf_monotonecubic_with_slopes values slopes grid = .ok s) :
    StrictGrid values ∧ values.length = grid.length ∧ slopes.length = values.length ∧
      2 ≤ values.length ∧ StrictGrid grid ∧
      s.inner = fcCurve values grid (fnOf slopes) := by
  unfold asdf_monotonecubic_with_slopes at h
  split_ifs at h with h1
  cases hsp : asdf_shapepreservingcubicspline_with_slopes values slopes grid with
  | error m => rw [hsp] at h; exact Except.noConfusion h
  | ok c =>
    rw [hsp] at h
    injection h with h4
    obtain ⟨hl, hsl, hn, hg, hc⟩ := sp_slopes_ok_elim hsp
    refine ⟨h1, hl, hsl, hn, hg, ?_⟩
    rw [← h4]
    exact congrArg MonotoneCubicSpline.inner (congrArg MonotoneCubicSpline.mk hc)

theorem kb_ok_elim {rt : K → K} {sqd : V → V → K} {vertices : List V}
    {tcb : List (K × K × K)} {closed : Bool} {c : PiecewiseCubicCurve K V}
    (h : asdf_centripetalkochanekbartelsspline rt sqd vertices tcb closed = .ok c) :
    2 ≤ vertices.length ∧ tcb.length = vertices.length ∧
      StrictGrid (cumsumFrom 0 (kbSpacings rt sqd vertices closed)) ∧
      c = kbCurve rt sqd vertices tcb closed := by
  unfold asdf_centripetalkochanekbartelsspline at h
  split_ifs at h with h1 h2 h3
  injection h with h4
  exact ⟨not_lt.mp h1, not_ne_iff.mp h2, h3, h4.symm⟩

theorem anim_ok_elim {rt : K → K} {sqd : V → V → K} {positions : List V}
    {times : List K} {speeds : List (Option K)} {tcb : List (K × K × K)}
    {closed : Bool} {s : AsdfSpline K V}
    (h : asdf_asdfspline rt sqd positions times speeds tcb closed = .ok s) :
    ∃ path, asdf_centripetalkochanekbartelsspline rt sqd positions tcb closed = .ok path ∧
      times.length = path.grid.length ∧ speeds.length = times.length ∧
      StrictGrid times ∧
      ((List.range times.length).any
        (animBad rt sqd positions tcb closed times speeds)) = false ∧
      s = ⟨path, ⟨fcCurve path.grid times
        (animSlope rt sqd positions tcb closed times speeds)⟩⟩ := by
  unfold asdf_asdfspline at h
  cases hkb : asdf_centripetalkochanekbartelsspline rt sqd positions tcb closed with
  | error e => rw [hkb] at h; exact Except.noConfusion h
  | ok path =>
    rw [hkb] at h
    dsimp only at h
    split_ifs at h with h1 h2 h3 h4
    injection h with h5
    exact ⟨path, rfl, not_ne_iff.mp h1, not_ne_iff.mp h2, h3, by simpa using h4, h5.symm⟩

theorem sp_error_ne {values grid : List K} {m : String}
    (h : asdf_shapepreservingcubicspline values grid = .error m) : m ≠ "" := by
  unfold asdf_shapepreservingcubicspline at h
  split_ifs at h <;> (injection h with h4; rw [← h4]; decide)

theorem sp_slopes_error_ne {values slopes grid : List K} {m : String}
    (h : asdf_shapepreservingcubicspline_with_slopes values slopes grid = .error m) :
    m ≠ "" := by
  unfold asdf_shapepreservingcubicspline_with_slopes at h
  split_ifs at h <;> (injection h with h4; rw [← h4]; decide)

theorem kb_error_ne {rt : K → K} {sqd : V → V → K} {vertices : List V}
    {tcb : List (K × K × K)} {closed : Bool} {m : String}
    (h : asdf_centripetalkochanekbartelsspline rt sqd vertices tcb closed = .error m) :
    m ≠ "" := by
  unfold asdf_centripetalkochanekbartelsspline at h
  split_ifs at h <;> (injection h with h4; rw [← h4]; decide)

theorem listFnFrom_length {α : Type} (f : ℕ → α) :
    ∀ (k i : ℕ), (listFnFrom f i k).length = k := by
  intro k
  induction k with
  | zero => intro i; rfl
  | succ k ih => intro i; simp [listFnFrom, ih]

theorem listFn_length {α : Type} (f : ℕ → α) (n : ℕ) : (listFn f n).length = n :=
  listFnFrom_length f n 0

theorem listFnFrom_get {α : Type} (f : ℕ → α) :
    ∀ (k i j : ℕ) (hj : j < (listFnFrom f i k).length),
      (listFnFrom f i k).get ⟨j, hj⟩ = f (i + j) := by
  intro k
  induction k with
  | zero => intro i j hj; simp [listFnFrom] at hj
  | succ k ih =>
    intro i j hj
    cases j with
    | zero => simp [listFnFrom]
    | succ j2 =>
      have hj2 : j2 < (listFnFrom f (i + 1) k).length := by
        simpa [listFnFrom] using hj
      have hstep : (listFnFrom f i (k + 1)).get ⟨j2 + 1, hj⟩
          = (listFnFrom f (i + 1) k).get ⟨j2, hj2⟩ := rfl
      rw [hstep, ih (i + 1) j2 hj2]
      exact congrArg f (by omega)

theorem listFn_get {α : Type} (f : ℕ → α) (n : ℕ) {j : ℕ}
    (hj : j < (listFn f n).length) : (listFn f n).get ⟨j, hj⟩ = f j := by
  have := listFnFrom_get f n 0 j hj
  simpa using this

theorem kbSpacings_length (rt : K → K) (sqd : V → V → K) (vertices : List V)
    (closed : Bool) :
    (kbSpacings rt sqd vertices closed).length =
      if closed then vertices.length else vertices.length - 1 := by
  simp [kbSpacings, listFn_length]

theorem cumsumFrom_length (a : K) (l : List K) :
    (cumsumFrom a l).length = l.length + 1 := by
  induction l generalizing a with
  | nil => rfl
  | cons x xs ih => simp [cumsumFrom, ih]

theorem kbCurve_grid (rt : K → K) (sqd : V → V → K) (vertices : List V)
    (tcb : List (K × K × K)) (closed : Bool) :
    (kbCurve rt sqd vertices tcb closed).grid =
      cumsumFrom 0 (kbSpacings rt sqd vertices closed) := rfl

theorem kbCurve_segments_length (rt : K → K) (sqd : V → V → K) (vertices : List V)
    (tcb : List (K × K × K)) (closed : Bool) :
    (kbCurve rt sqd vertices tcb closed).segments.length =
      (kbSpacings rt sqd vertices closed).length := by
  simp [kbCurve]

theorem vtx_get {vertices : List V} {i : ℕ} (hi : i < vertices.length) :
    vtx vertices i = vertices.get ⟨i, hi⟩ := by
  show vertices.getD (i % vertices.length) 0 = _
  rw [Nat.mod_eq_of_lt hi, List.getD_eq_getElem vertices 0 hi, List.get_eq_getElem]

theorem kbCurve_seg_get {rt : K → K} {sqd : V → V → K} {vertices : List V}
    {tcb : List (K × K × K)} {closed : Bool} {j : ℕ}
    (hj : j < (kbCurve rt sqd vertices tcb closed).segments.length) :
    (kbCurve rt sqd vertices tcb closed).segments.get ⟨j, hj⟩ =
      hermite (vtx vertices j) (vtx vertices (j + 1))
        ((kbSpacings rt sqd vertices closed).getD j 1 •
          kbOutTangent rt sqd vertices tcb closed j)
        ((kbSpacings rt sqd vertices closed).getD j 1 •
          kbInTangent rt sqd vertices tcb closed (j + 1)) :=
  List.get_ofFn (fun i : Fin (kbSpacings rt sqd vertices closed).length =>
    hermite (vtx vertices i.1) (vtx vertices (i.1 + 1))
      ((kbSpacings rt sqd vertices closed).getD i.1 1 •
        kbOutTangent rt sqd vertices tcb closed i.1)
      ((kbSpacings rt sqd vertices closed).getD i.1 1 •
        kbInTangent rt sqd vertices tcb closed (i.1 + 1))) ⟨j, hj⟩

theorem kb_grid_length (rt : K → K) (sqd : V → V → K) (vertices : List V)
    (tcb : List (K × K × K)) (closed : Bool) :
    (kbCurve rt sqd vertices tcb closed).grid.length
      = (kbSpacings rt sqd vertices closed).length + 1 := by
  rw [kbCurve_grid, cumsumFrom_length]

theorem cumsumFrom_headD (a : K) (l : List K) : (cumsumFrom a l).headD 0 = a := by
  cases l <;> rfl

theorem cumsumFrom_getD_zero (a : K) (l : List K) : (cumsumFrom a l).getD 0 0 = a := by
  cases l <;> rfl

theorem cumsumFrom_getD_succ_sub (l : List K) :
    ∀ (a : K) (i : ℕ), i < l.length →
      (cumsumFrom a l).getD (i + 1) 0 - (cumsumFrom a l).getD i 0 = l.getD i 0 := by
  induction l with
  | nil => intro a i hi; simp at hi
  | cons x xs ih =>
    intro a i hi
    cases i with
    | zero =>
      show (cumsumFrom (a + x) xs).getD 0 0 - a = x
      rw [cumsumFrom_getD_zero]
      ring
    | succ j =>
      have hj : j < xs.length := by simpa using hi
      show (cumsumFrom (a + x) xs).getD (j + 1) 0 - (cumsumFrom (a + x) xs).getD j 0
          = xs.getD j 0
      exact ih (a + x) j hj

theorem kbSpacings_getD {rt : K → K} {sqd : V → V → K} {vertices : List V}
    {closed : Bool} {i : ℕ}
    (hi : i < (kbSpacings rt sqd vertices closed).length) :
    (kbSpacings rt sqd vertices closed).getD i 0
      = centripetalSpacing rt sqd (vtx vertices i) (vtx vertices (i + 1)) := by
  rw [List.getD_eq_getElem _ 0 hi]
  exact listFn_get _ _ hi

theorem sqDist3_nonneg (p q : ℝ × ℝ × ℝ) : 0 ≤ sqDist3 p q := by
  unfold sqDist3
  positivity

theorem clampSlope_id {m d : K} (h0 : 0 ≤ m) (h3 : m ≤ 3 * d) : clampSlope m d = m := by
  have habs : m ≤ 3 * |d| := le_trans h3
    (mul_le_mul_of_nonneg_left (le_abs_self d) (by norm_num))
  have hneg : -(3 * |d|) ≤ m :=
    le_trans (neg_nonpos.mpr (mul_nonneg (by norm_num) (abs_nonneg d))) h0
  rw [clampSlope, min_eq_left habs, max_eq_right hneg]

theorem kb_grid_inv {rt : K → K} {sqd : V → V → K} {vertices : List V}
    {tcb : List (K × K × K)} {closed : Bool} (hn : 2 ≤ vertices.length)
    (hg : StrictGrid (cumsumFrom 0 (kbSpacings rt sqd vertices closed))) :
    GridInvariant (kbCurve rt sqd vertices tcb closed) := by
  have hsp : 1 ≤ (kbSpacings rt sqd vertices closed).length := by
    rw [kbSpacings_length]
    cases closed <;> simp <;> omega
  refine ⟨hg, ?_, ?_⟩
  · rw [kbCurve_grid, cumsumFrom_length]; omega
  · rw [kbCurve_grid, cumsumFrom_length, kbCurve_segments_length]

end KBLemmas

section FailureClaims

variable {K : Type} [LinearOrderedField K] {V : Type} [AddCommGroup V] [Module K V]

/-- C5: building any of the curve kinds with mismatched array lengths, or with
a grid or time sequence that is not strictly increasing where strict increase
is required, fails — no handle is produced and a non-empty error message is
returned through the failure channel. -/
theorem C5_construction_failures {K V : Type} [LinearOrderedField K]
    [AddCommGroup V] [Module K V] :
    (∀ values grid : List K, values.length ≠ grid.length →
      ∃ m, asdf_shapepreservingcubicspline values grid = .error m ∧ m ≠ "") ∧
    (∀ values grid : List K, ¬ StrictGrid grid →
      ∃ m, asdf_shapepreservingcubicspline values grid = .error m ∧ m ≠ "") ∧
    (∀ values slopes grid : List K, slopes.length ≠ values.length →
      ∃ m, asdf_shapepreservingcubicspline_with_slopes values slopes grid
        = .error m ∧ m ≠ "") ∧
    (∀ values grid : List K, values.length ≠ grid.length →
      ∃ m, asdf_monotonecubic values grid = .error m ∧ m ≠ "") ∧
    (∀ values grid : List K, ¬ StrictGrid grid →
      ∃ m, asdf_monotonecubic values grid = .error m ∧ m ≠ "") ∧
    (∀ (rt : K → K) (sqd : V → V → K) (vertices : List V)
        (tcb : List (K × K × K)) (closed : Bool), tcb.length ≠ vertices.length →
      ∃ m, asdf_centripetalkochanekbartelsspline rt sqd vertices tcb closed
        = .error m ∧ m ≠ "") ∧
    (∀ (rt : K → K) (sqd : V → V → K) (positions : List V) (times : List K)
        (speeds : List (Option K)) (tcb : List (K × K × K)) (closed : Bool),
        speeds.length ≠ times.length →
      ∃ m, asdf_asdfspline rt sqd positions times speeds tcb closed
        = .error m ∧ m ≠ "") ∧
    (∀ (rt : K → K) (sqd : V → V → K) (positions : List V) (times : List K)
        (speeds : List (Option K)) (tcb : List (K × K × K)) (closed : Bool),
        ¬ StrictGrid times →
      ∃ m, asdf_asdfspline rt sqd positions times speeds tcb closed
        = .error m ∧ m ≠ "") := by
  refine ⟨?_, ?_, ?_, ?_, ?_, ?_, ?_, ?_⟩
  · intro values grid hbad
    unfold asdf_shapepreservingcubicspline
    split_ifs <;> exact ⟨_, rfl, by decide⟩
  · intro values grid hbad
    unfold asdf_shapepreservingcubicspline
    split_ifs <;> exact ⟨_, rfl, by decide⟩
  · intro values slopes grid hbad
    unfold asdf_shapepreservingcubicspline_with_slopes
    split_ifs <;> exact ⟨_, rfl, by decide⟩
  · intro values grid hbad
    unfold asdf_monotonecubic
    split_ifs with h1
    · cases hsp : asdf_shapepreservingcubicspline values grid with
      | error e => exact ⟨e, rfl, sp_error_ne hsp⟩
      | ok c => exact absurd (sp_ok_elim hsp).1 hbad
    · exact ⟨_, rfl, by decide⟩
  · intro values grid hbad
    unfold asdf_monotonecubic
    split_ifs with h1
    · cases hsp : asdf_shapepreservingcubicspline values grid with
      | error e => exact ⟨e, rfl, sp_error_ne hsp⟩
      | ok c => exact absurd (sp_ok_elim hsp).2.2.1 hbad
    · exact ⟨_, rfl, by decide⟩
  · intro rt sqd vertices tcb closed hbad
    unfold asdf_centripetalkochanekbartelsspline
    split_ifs <;> exact ⟨_, rfl, by decide⟩
  · intro rt sqd positions times speeds tcb closed hbad
    unfold asdf_asdfspline
    cases hkb : asdf_centripetalkochanekbartelsspline rt sqd positions tcb closed with
    | error e => exact ⟨e, rfl, kb_error_ne hkb⟩
    | ok path =>
      dsimp only
      split_ifs <;> exact ⟨_, rfl, by decide⟩
  · intro rt sqd positions times speeds tcb closed hbad
    unfold asdf_asdfspline
    cases hkb : asdf_centripetalkochanekbartelsspline rt sqd positions tcb closed with
    | error e => exact ⟨e, rfl, kb_error_ne hkb⟩
    | ok path =>
      dsimp only
      split_ifs <;> exact ⟨_, rfl, by decide⟩

/-- Witness for C5: one concrete failing input per curve kind and per failure
class, over the rationals. -/
theorem C5_witness :
    (∃ m, asdf_shapepreservingcubicspline (K := ℚ) [0, 1] [0]
      = .error m ∧ m ≠ "") ∧
    (∃ m, asdf_shapepreservingcubicspline (K := ℚ) [0, 1] [1, 0]
      = .error m ∧ m ≠ "") ∧
    (∃ m, asdf_shapepreservingcubicspline_with_slopes (K := ℚ) [0, 1] [1] [0, 1]
      = .error m ∧ m ≠ "") ∧
    (∃ m, asdf_monotonecubic (K := ℚ) [0, 1] [0]
      = .error m ∧ m ≠ "") ∧
    (∃ m, asdf_monotonecubic (K := ℚ) [0, 1] [1, 0]
      = .error m ∧ m ≠ "") ∧
    (∃ m, asdf_centripetalkochanekbartelsspline (K := ℚ) (V := ℚ) id
      (fun _ _ => 0) [0, 1] [(0, 0, 0)] false = .error m ∧ m ≠ "") ∧
    (∃ m, asdf_asdfspline (K := ℚ) (V := ℚ) id (fun _ _ => 0) [0, 1] [0, 1]
      [none] [(0, 0, 0), (0, 0, 0)] false = .error m ∧ m ≠ "") ∧
    (∃ m, asdf_asdfspline (K := ℚ) (V := ℚ) id (fun _ _ => 0) [0, 1] [1, 0]
      [none, none] [(0, 0, 0), (0, 0, 0)] false = .error m ∧ m ≠ "") :=
  ⟨(C5_construction_failures (V := ℚ)).1 [0, 1] [0] (by decide),
    (C5_construction_failures (V := ℚ)).2.1 [0, 1] [1, 0] (by decide),
    (C5_construction_failures (V := ℚ)).2.2.1 [0, 1] [1] [0, 1] (by decide),
    (C5_construction_failures (V := ℚ)).2.2.2.1 [0, 1] [0] (by decide),
    (C5_construction_failures (V := ℚ)).2.2.2.2.1 [0, 1] [1, 0] (by decide),
    (C5_construction_failures (V := ℚ)).2.2.2.2.2.1 id (fun _ _ => 0) [0, 1]
      [(0, 0, 0)] false (by decide),
    (C5_construction_failures (V := ℚ)).2.2.2.2.2.2.1 id (fun _ _ => 0) [0, 1]
      [0, 1] [none] [(0, 0, 0), (0, 0, 0)] false (by decide),
    (C5_construction_failures (V := ℚ)).2.2.2.2.2.2.2 id (fun _ _ => 0) [0, 1]
      [1, 0] [none, none] [(0, 0, 0), (0, 0, 0)] false (by decide)⟩

/-- C9: for every successfully constructed curve of any kind, the grid is
strictly increasing, has at least two entries, and has exactly one more entry
than there are segments; in this purely functional model no later operation
changes a constructed curve. -/
theorem C9_grid_invariants {K V : Type} [LinearOrderedField K]
    [AddCommGroup V] [Module K V] :
    (∀ values grid : List K,
      (asdf_shapepreservingcubicspline values grid).isOk = true →
      GridInvariant (spBuilt values grid)) ∧
    (∀ values slopes grid : List K,
      (asdf_shapepreservingcubicspline_with_slopes values slopes grid).isOk = true →
      GridInvariant (spSlopeBuilt values slopes grid)) ∧
    (∀ values grid : List K, (asdf_monotonecubic values grid).isOk = true →
      GridInvariant (mcBuilt values grid).inner) ∧
    (∀ values slopes grid : List K,
      (asdf_monotonecubic_with_slopes values slopes grid).isOk = true →
      GridInvariant (mcSlopeBuilt values slopes grid).inner) ∧
    (∀ (rt : K → K) (sqd : V → V → K) (vertices : List V)
        (tcb : List (K × K × K)) (closed : Bool),
      (asdf_centripetalkochanekbartelsspline rt sqd vertices tcb closed).isOk = true →
      GridInvariant (kbBuilt rt sqd vertices tcb closed)) ∧
    (∀ (rt : K → K) (sqd : V → V → K) (positions : List V) (times : List K)
        (speeds : List (Option K)) (tcb : List (K × K × K)) (closed : Bool),
      (asdf_asdfspline rt sqd positions times speeds tcb closed).isOk = true →
      GridInvariant (animBuilt rt sqd positions times speeds tcb closed).path ∧
        GridInvariant
          (animBuilt rt sqd positions times speeds tcb closed).timemap.inner) := by
  refine ⟨?_, ?_, ?_, ?_, ?_, ?_⟩
  · intro values grid h
    obtain ⟨c, hc⟩ := isOk_exists h
    obtain ⟨hlen, hn, hg, hceq⟩ := sp_ok_elim hc
    unfold spBuilt
    rw [okOr_ok hc, hceq]
    exact fcCurve_grid_inv _ hg hlen hn
  · intro values slopes grid h
    obtain ⟨c, hc⟩ := isOk_exists h
    obtain ⟨hlen, hsl, hn, hg, hceq⟩ := sp_slopes_ok_elim hc
    unfold spSlopeBuilt
    rw [okOr_ok hc, hceq]
    exact fcCurve_grid_inv _ hg hlen hn
  · intro values grid h
    obtain ⟨hv, hlen, hn, hg, hinner⟩ := mcBuilt_facts h
    rw [hinner]
    exact fcCurve_grid_inv _ hg hlen hn
  · intro values slopes grid h
    obtain ⟨s, hs⟩ := isOk_exists h
    obtain ⟨hv, hlen, hsl, hn, hg, hinner⟩ := mc_slopes_ok_elim hs
    unfold mcSlopeBuilt
    rw [okOr_ok hs, hinner]
    exact fcCurve_grid_inv _ hg hlen hn
  · intro rt sqd vertices tcb closed h
    obtain ⟨c, hc⟩ := isOk_exists h
    obtain ⟨hn, htcb, hg, hceq⟩ := kb_ok_elim hc
    unfold kbBuilt
    rw [okOr_ok hc, hceq]
    exact kb_grid_inv hn hg
  · intro rt sqd positions times speeds tcb closed h
    obtain ⟨s, hs⟩ := isOk_exists h
    obtain ⟨path, hkb, hlent, hlens, hst, hany, hseq⟩ := anim_ok_elim hs
    obtain ⟨hn, htcb, hg, hpeq⟩ := kb_ok_elim hkb
    have hpinv : GridInvariant path := by rw [hpeq]; exact kb_grid_inv hn hg
    unfold animBuilt
    rw [okOr_ok hs, hseq]
    refine ⟨hpinv, ?_⟩
    exact fcCurve_grid_inv _ hst hlent.symm hpinv.2.1

/-- Witness for C9: concrete successful constructions of every curve kind over
the rationals. -/
theorem C9_witness :
    GridInvariant (spBuilt (K := ℚ) [0, 1] [0, 1]) ∧
    GridInvariant (spSlopeBuilt (K := ℚ) [0, 1] [1, 1] [0, 1]) ∧
    GridInvariant (mcBuilt (K := ℚ) [0, 1] [0, 1]).inner ∧
    GridInvariant (mcSlopeBuilt (K := ℚ) [0, 1] [1, 1] [0, 1]).inner ∧
    GridInvariant (kbBuilt (K := ℚ) (V := ℚ) id (fun _ _ => 0) [0, 1]
      [(0, 0, 0), (0, 0, 0)] false) ∧
    (GridInvariant (animBuilt (K := ℚ) (V := ℚ) id (fun _ _ => 0) [0, 1] [0, 1]
        [none, none] [(0, 0, 0), (0, 0, 0)] false).path ∧
      GridInvariant (animBuilt (K := ℚ) (V := ℚ) id (fun _ _ => 0) [0, 1] [0, 1]
        [none, none] [(0, 0, 0), (0, 0, 0)] false).timemap.inner) :=
  ⟨(C9_grid_invariants (V := ℚ)).1 [0, 1] [0, 1] (by decide),
    (C9_grid_invariants (V := ℚ)).2.1 [0, 1] [1, 1] [0, 1] (by decide),
    (C9_grid_invariants (V := ℚ)).2.2.1 [0, 1] [0, 1] (by decide),
    (C9_grid_invariants (V := ℚ)).2.2.2.1 [0, 1] [1, 1] [0, 1] (by decide),
    (C9_grid_invariants (V := ℚ)).2.2.2.2.1 id (fun _ _ => 0) [0, 1]
      [(0, 0, 0), (0, 0, 0)] false (by
        simp [asdf_centripetalkochanekbartelsspline, kbSpacings, listFn,
          listFnFrom, vtx, centripetalSpacing, cumsumFrom, StrictGrid,
          Except.isOk, Except.toBool]),
    (C9_grid_invariants (V := ℚ)).2.2.2.2.2 id (fun _ _ => 0) [0, 1] [0, 1]
      [none, none] [(0, 0, 0), (0, 0, 0)] false (by
        simp [asdf_asdfspline, asdf_centripetalkochanekbartelsspline, kbCurve,
          kbSpacings, listFn, listFnFrom, vtx, centripetalSpacing, cumsumFrom,
          StrictGrid, Except.isOk, Except.toBool, animBad, List.range_succ])⟩

end FailureClaims

section InterpolationClaims

/-- C2: for every successfully constructed centripetal Kochanek-Bartels curve
(any value dimension through the value type, open or closed), evaluating the
curve at each original input vertex's own grid parameter returns that vertex's
exact value; in this exact-arithmetic model the floating-point tolerance is
zero. -/
theorem C2_kb_vertex_interpolation {K V : Type} [LinearOrderedField K]
    [AddCommGroup V] [Module K V] {rt : K → K} {sqd : V → V → K}
    {vertices : List V} {tcb : List (K × K × K)} {closed : Bool}
    {c : PiecewiseCubicCurve K V}
    (h : asdf_centripetalkochanekbartelsspline rt sqd vertices tcb closed = .ok c)
    (i : ℕ) (hi : i < vertices.length) (hig : i < c.grid.length) :
    evaluate c (c.grid.get ⟨i, hig⟩) = vertices.get ⟨i, hi⟩ := by
  obtain ⟨hn, htcb, hg, hceq⟩ := kb_ok_elim h
  subst hceq
  have hgrid : StrictGrid (kbCurve rt sqd vertices tcb closed).grid := hg
  have hglen := kb_grid_length rt sqd vertices tcb closed
  have hslen := kbCurve_segments_length rt sqd vertices tcb closed
  have hlen2 : (kbCurve rt sqd vertices tcb closed).grid.length
      = (kbCurve rt sqd vertices tcb closed).segments.length + 1 := by
    rw [hglen, hslen]
  have hpos : 0 < (kbCurve rt sqd vertices tcb closed).grid.length := by omega
  have hfirst : gridFirst (kbCurve rt sqd vertices tcb closed)
      ≤ (kbCurve rt sqd vertices tcb closed).grid.get ⟨i, hig⟩ := by
    rw [gridFirst, headD_eq_get hpos]
    rcases Nat.eq_zero_or_pos i with rfl | hip
    · exact le_rfl
    · exact le_of_lt (strictGrid_get_lt hgrid hip hig)
  have hlast : (kbCurve rt sqd vertices tcb closed).grid.get ⟨i, hig⟩
      ≤ gridLast (kbCurve rt sqd vertices tcb closed) :=
    chainLt_get_le_getLastD hgrid hig 0
  rw [evaluate_of_mem hfirst hlast]
  have hLval := kbSpacings_length rt sqd vertices closed
  by_cases hiseg : i < (kbCurve rt sqd vertices tcb closed).segments.length
  · rw [evalSegs_knot (kbCurve rt sqd vertices tcb closed).segments
        (kbCurve rt sqd vertices tcb closed).grid i hig hiseg hgrid hlen2,
      kbCurve_seg_get hiseg, hermite_eval_zero, vtx_get hi]
  · cases closed with
    | true =>
      exfalso
      simp only [if_true] at hLval
      omega
    | false =>
      simp only [Bool.false_eq_true, if_false] at hLval
      have h1 : i = (kbCurve rt sqd vertices tcb false).grid.length - 1 := by omega
      subst h1
      have hgne : (kbCurve rt sqd vertices tcb false).grid ≠ [] :=
        List.length_pos.mp hpos
      rw [get_last_eq_getLastD hgne hig]
      have hspos : 0 < (kbCurve rt sqd vertices tcb false).segments.length := by omega
      have hsne : (kbCurve rt sqd vertices tcb false).segments ≠ [] :=
        List.length_pos.mp hspos
      rw [evalSegs_right_end (kbCurve rt sqd vertices tcb false).segments
        (kbCurve rt sqd vertices tcb false).grid 0 hsne hlen2 hgrid]
      have hsub : (kbCurve rt sqd vertices tcb false).segments.length - 1 <
          (kbCurve rt sqd vertices tcb false).segments.length := by omega
      have hlastget : (kbCurve rt sqd vertices tcb false).segments.getLast hsne
          = (kbCurve rt sqd vertices tcb false).segments.get
              ⟨(kbCurve rt sqd vertices tcb false).segments.length - 1, hsub⟩ :=
        (List.get_length_sub_one hsub).symm
      rw [hlastget, kbCurve_seg_get hsub, hermite_eval_one]
      have hj1 : (kbCurve rt sqd vertices tcb false).segments.length - 1 + 1
          < vertices.length := by omega
      rw [vtx_get hj1]
      exact congrArg vertices.get (Fin.mk_eq_mk.mpr (by omega))

/-- Witness for C2: the open centripetal Kochanek-Bartels curve through the
scalar vertices 0 and 1 passes through the second vertex at its own grid
parameter. -/
theorem C2_witness :
    asdf_centripetalkochanekbartelsspline (K := ℚ) (V := ℚ) id (fun _ _ => 0)
        [0, 1] [(0, 0, 0), (0, 0, 0)] false
      = Except.ok (kbCurve id (fun _ _ => 0) [0, 1] [(0, 0, 0), (0, 0, 0)] false) ∧
    (1 : ℕ) < ([0, 1] : List ℚ).length ∧
    evaluate (kbCurve (K := ℚ) (V := ℚ) id (fun _ _ => 0) [0, 1]
        [(0, 0, 0), (0, 0, 0)] false)
      ((kbCurve (K := ℚ) (V := ℚ) id (fun _ _ => 0) [0, 1]
          [(0, 0, 0), (0, 0, 0)] false).grid.get ⟨1, by decide⟩)
      = ([0, 1] : List ℚ).get ⟨1, by decide⟩ := by
  have hok : asdf_centripetalkochanekbartelsspline (K := ℚ) (V := ℚ) id (fun _ _ => 0)
      [0, 1] [(0, 0, 0), (0, 0, 0)] false
      = Except.ok (kbCurve id (fun _ _ => 0) [0, 1] [(0, 0, 0), (0, 0, 0)] false) := by
    simp [asdf_centripetalkochanekbartelsspline, kbSpacings, listFn, listFnFrom,
      vtx, centripetalSpacing, cumsumFrom, StrictGrid]
  exact ⟨hok, by decide, C2_kb_vertex_interpolation hok 1 (by decide) (by decide)⟩

/-- C8: for every curve built by the centripetal Kochanek-Bartels builder over
the reals, the grid starts at 0 and is the cumulative sum of the per-segment
centripetal spacings: each consecutive grid difference is nonnegative and its
fourth power recovers the squared Euclidean chord length between the segment's
endpoint vertices — so the spacing is the square root of the Euclidean chord
length, the chord length being the square root of the squared distance — and a
zero-length chord is special-cased to a spacing of 1. -/
theorem C8_centripetal_spacing_and_grid {vertices : List (ℝ × ℝ × ℝ)}
    {tcb : List (ℝ × ℝ × ℝ)} {closed : Bool}
    {c : PiecewiseCubicCurve ℝ (ℝ × ℝ × ℝ)}
    (h : asdf_centripetalkochanekbartelsspline Real.sqrt sqDist3 vertices tcb closed
      = .ok c) :
    c.grid.headD 0 = 0 ∧
    c.grid.length = (kbSpacings Real.sqrt sqDist3 vertices closed).length + 1 ∧
    ∀ i, i < (kbSpacings Real.sqrt sqDist3 vertices closed).length →
      (sqDist3 (vtx vertices i) (vtx vertices (i + 1)) ≠ 0 →
        0 ≤ c.grid.getD (i + 1) 0 - c.grid.getD i 0 ∧
        ((c.grid.getD (i + 1) 0 - c.grid.getD i 0) ^ 2) ^ 2
          = sqDist3 (vtx vertices i) (vtx vertices (i + 1))) ∧
      (sqDist3 (vtx vertices i) (vtx vertices (i + 1)) = 0 →
        c.grid.getD (i + 1) 0 - c.grid.getD i 0 = 1) := by
  obtain ⟨hn, htcb, hg, hceq⟩ := kb_ok_elim h
  subst hceq
  refine ⟨?_, kb_grid_length Real.sqrt sqDist3 vertices tcb closed, ?_⟩
  · rw [kbCurve_grid, cumsumFrom_headD]
  · intro i hi
    have hdiff : (kbCurve Real.sqrt sqDist3 vertices tcb closed).grid.getD (i + 1) 0
        - (kbCurve Real.sqrt sqDist3 vertices tcb closed).grid.getD i 0
        = (kbSpacings Real.sqrt sqDist3 vertices closed).getD i 0 := by
      rw [kbCurve_grid]
      exact cumsumFrom_getD_succ_sub _ 0 i hi
    rw [hdiff, kbSpacings_getD hi]
    constructor
    · intro hne
      simp only [centripetalSpacing, if_neg hne]
      refine ⟨Real.sqrt_nonneg _, ?_⟩
      rw [Real.sq_sqrt (Real.sqrt_nonneg _), Real.sq_sqrt (sqDist3_nonneg _ _)]
    · intro heq
      simp only [centripetalSpacing, if_pos heq]

/-- Witness for C8: the open centripetal Kochanek-Bartels curve through the
spatial vertices (0,0,0) and (1,0,0) builds successfully and its grid is the
cumulative centripetal spacing. -/
theorem C8_witness :
    (asdf_centripetalkochanekbartelsspline Real.sqrt sqDist3
        [((0 : ℝ), (0 : ℝ), (0 : ℝ)), (1, 0, 0)] [(0, 0, 0), (0, 0, 0)] false
      = Except.ok (kbCurve Real.sqrt sqDist3 [(0, 0, 0), (1, 0, 0)]
          [(0, 0, 0), (0, 0, 0)] false)) ∧
    ((kbCurve Real.sqrt sqDist3 [((0 : ℝ), (0 : ℝ), (0 : ℝ)), (1, 0, 0)]
        [(0, 0, 0), (0, 0, 0)] false).grid.headD 0 = 0 ∧
      (kbCurve Real.sqrt sqDist3 [((0 : ℝ), (0 : ℝ), (0 : ℝ)), (1, 0, 0)]
          [(0, 0, 0), (0, 0, 0)] false).grid.length
        = (kbSpacings Real.sqrt sqDist3
            [((0 : ℝ), (0 : ℝ), (0 : ℝ)), (1, 0, 0)] false).length + 1 ∧
      ∀ i, i < (kbSpacings Real.sqrt sqDist3
          [((0 : ℝ), (0 : ℝ), (0 : ℝ)), (1, 0, 0)] false).length →
        (sqDist3 (vtx [((0 : ℝ), (0 : ℝ), (0 : ℝ)), (1, 0, 0)] i)
            (vtx [((0 : ℝ), (0 : ℝ), (0 : ℝ)), (1, 0, 0)] (i + 1)) ≠ 0 →
          0 ≤ (kbCurve Real.sqrt sqDist3 [((0 : ℝ), (0 : ℝ), (0 : ℝ)), (1, 0, 0)]
                [(0, 0, 0), (0, 0, 0)] false).grid.getD (i + 1) 0
              - (kbCurve Real.sqrt sqDist3 [((0 : ℝ), (0 : ℝ), (0 : ℝ)), (1, 0, 0)]
                [(0, 0, 0), (0, 0, 0)] false).grid.getD i 0 ∧
          (((kbCurve Real.sqrt sqDist3 [((0 : ℝ), (0 : ℝ), (0 : ℝ)), (1, 0, 0)]
                [(0, 0, 0), (0, 0, 0)] false).grid.getD (i + 1) 0
              - (kbCurve Real.sqrt sqDist3 [((0 : ℝ), (0 : ℝ), (0 : ℝ)), (1, 0, 0)]
                [(0, 0, 0), (0, 0, 0)] false).grid.getD i 0) ^ 2) ^ 2
            = sqDist3 (vtx [((0 : ℝ), (0 : ℝ), (0 : ℝ)), (1, 0, 0)] i)
                (vtx [((0 : ℝ), (0 : ℝ), (0 : ℝ)), (1, 0, 0)] (i + 1))) ∧
        (sqDist3 (vtx [((0 : ℝ), (0 : ℝ), (0 : ℝ)), (1, 0, 0)] i)
            (vtx [((0 : ℝ), (0 : ℝ), (0 : ℝ)), (1, 0, 0)] (i + 1)) = 0 →
          (kbCurve Real.sqrt sqDist3 [((0 : ℝ), (0 : ℝ), (0 : ℝ)), (1, 0, 0)]
              [(0, 0, 0), (0, 0, 0)] false).grid.getD (i + 1) 0
            - (kbCurve Real.sqrt sqDist3 [((0 : ℝ), (0 : ℝ), (0 : ℝ)), (1, 0, 0)]
              [(0, 0, 0), (0, 0, 0)] false).grid.getD i 0 = 1)) := by
  have hok : asdf_centripetalkochanekbartelsspline Real.sqrt sqDist3
      [((0 : ℝ), (0 : ℝ), (0 : ℝ)), (1, 0, 0)] [(0, 0, 0), (0, 0, 0)] false
      = Except.ok (kbCurve Real.sqrt sqDist3 [(0, 0, 0), (1, 0, 0)]
          [(0, 0, 0), (0, 0, 0)] false) := by
    simp [asdf_centripetalkochanekbartelsspline, kbSpacings, listFn, listFnFrom,
      vtx, centripetalSpacing, cumsumFrom, StrictGrid, sqDist3, Real.sqrt_one]
  exact ⟨hok, C8_centripetal_spacing_and_grid hok⟩

theorem hornerEval_continuous (seg : ℝ × ℝ × ℝ × ℝ) :
    Continuous (fun s : ℝ => hornerEval seg s) := by
  simp only [hornerEval, smul_eq_mul]
  continuity

theorem seg_surj {seg : ℝ × ℝ × ℝ × ℝ} {g0 g1 v : ℝ} (h01 : g0 < g1)
    (hl : hornerEval seg (0 : ℝ) ≤ v) (hr : v ≤ hornerEval seg (1 : ℝ)) :
    ∃ t, g0 ≤ t ∧ t ≤ g1 ∧ hornerEval seg ((t - g0) / (g1 - g0)) = v := by
  have hsub : Set.Icc (hornerEval seg (0 : ℝ)) (hornerEval seg (1 : ℝ))
      ⊆ (fun s : ℝ => hornerEval seg s) '' Set.Icc 0 1 :=
    intermediate_value_Icc (by norm_num) (hornerEval_continuous seg).continuousOn
  obtain ⟨u, hu, huv⟩ := hsub ⟨hl, hr⟩
  have hden : (0 : ℝ) < g1 - g0 := sub_pos.mpr h01
  refine ⟨g0 + u * (g1 - g0), ?_, ?_, ?_⟩
  · nlinarith [mul_nonneg hu.1 hden.le]
  · nlinarith [mul_nonneg (sub_nonneg.mpr hu.2) hden.le]
  · have harg : (g0 + u * (g1 - g0) - g0) / (g1 - g0) = u := by
      field_simp
    rw [harg]
    exact huv

theorem evalSegs_surj (segs : List (ℝ × ℝ × ℝ × ℝ)) :
    ∀ (grid : List ℝ) (d v : ℝ) (hne : segs ≠ []),
      grid.length = segs.length + 1 → List.Chain' (· < ·) grid →
      List.Chain' (fun a b => hornerEval b (0 : ℝ) = hornerEval a (1 : ℝ)) segs →
      hornerEval (segs.head hne) (0 : ℝ) ≤ v →
      v ≤ hornerEval (segs.getLast hne) (1 : ℝ) →
      ∃ t, grid.headD d ≤ t ∧ t ≤ grid.getLastD d ∧ evalSegs segs grid t = v := by
  induction segs with
  | nil => intro _ _ _ hne _ _ _ _ _; exact absurd rfl hne
  | cons s rest ih =>
    intro grid d v hne hlen hg hag hl hr
    rcases grid with _ | ⟨g0, _ | ⟨g1, gr⟩⟩
    · simp at hlen
    · simp at hlen
    have h01 : g0 < g1 := (List.chain'_cons.mp hg).1
    cases rest with
    | nil =>
      rcases gr with _ | ⟨g2, gr2⟩
      · obtain ⟨t, ht0, ht1, htv⟩ := seg_surj h01 hl hr
        refine ⟨t, by simpa using ht0, ?_, ?_⟩
        · simpa [List.getLastD_cons, List.getLastD_nil] using ht1
        · rw [evalSegs_single]
          exact htv
      · simp at hlen
    | cons s2 r2 =>
      rcases gr with _ | ⟨g2, gr2⟩
      · simp at hlen
      have hgt : List.Chain' (· < ·) (g1 :: g2 :: gr2) := (List.chain'_cons.mp hg).2
      have h12 : g1 < g2 := (List.chain'_cons.mp hgt).1
      have hagt := (List.chain'_cons.mp hag).2
      have hagree : hornerEval s2 (0 : ℝ) = hornerEval s (1 : ℝ) :=
        (List.chain'_cons.mp hag).1
      have hlent : (g1 :: g2 :: gr2).length = (s2 :: r2).length + 1 := by
        simp at hlen ⊢; omega
      by_cases hcase : v ≤ hornerEval s (1 : ℝ)
      · obtain ⟨t, ht0, ht1, htv⟩ := seg_surj h01 hl hcase
        by_cases hlt : t < g1
        · refine ⟨t, by simpa using ht0, ?_, ?_⟩
          · have hend : t ≤ (g1 :: g2 :: gr2).getLastD g0 :=
              le_trans ht1 (chainLt_head_le_getLastD hgt g0)
            simpa [List.getLastD_cons] using hend
          · rw [evalSegs_cons₂, if_pos hlt]
            exact htv
        · have hteq : t = g1 := le_antisymm ht1 (not_lt.mp hlt)
          have hveq : v = hornerEval s (1 : ℝ) := by
            rw [← htv, hteq, div_self (ne_of_gt (sub_pos.mpr h01))]
            rfl
          refine ⟨g1, by simpa using h01.le, ?_, ?_⟩
          · have hend : g1 ≤ (g1 :: g2 :: gr2).getLastD g0 :=
              chainLt_head_le_getLastD hgt g0
            simpa [List.getLastD_cons] using hend
          · rw [evalSegs_cons₂, if_neg (lt_irrefl g1), evalSegs_left_end h12, hagree,
              hveq]
      · push_neg at hcase
        have hl2 : hornerEval s2 (0 : ℝ) ≤ v := by
          rw [hagree]
          exact hcase.le
        obtain ⟨t, ht0, ht1, htv⟩ :=
          ih (g1 :: g2 :: gr2) g0 v (by simp) hlent hgt hagt hl2 hr
        have hg1t : g1 ≤ t := by simpa using ht0
        refine ⟨t, by simpa using le_trans h01.le hg1t, ?_, ?_⟩
        · simpa [List.getLastD_cons] using ht1
        · rw [evalSegs_cons₂, if_neg (not_lt.mpr hg1t)]
          exact htv

/-- C6: for every successfully built Monotone Cubic Spline over the reals, the
inverse lookup has a solution exactly when the queried value lies inside the
spline's overall output range, the closed interval from the first to the last
input value: it fails for every value outside that range and succeeds for
every value inside it. -/
theorem C6_get_time_output_range {values grid : List ℝ} {s : MonotoneCubicSpline ℝ}
    (h : asdf_monotonecubic values grid = .ok s) (v : ℝ) :
    GetTimeOk s v ↔
      fnOf values 0 ≤ v ∧ v ≤ fnOf values (values.length - 1) := by
  obtain ⟨hv, hlen, hn, hg, hinner⟩ := mc_ok_elim h
  have hmn := fcTangent_nonneg hv hg hlen hn
  constructor
  · rintro ⟨t, ht1, ht2, hev⟩
    rw [hinner] at hev
    have hb := fcCurve_range hv hg hlen hn hmn t
    rw [hev] at hb
    exact hb
  · rintro ⟨hv1, hv2⟩
    have hsplen := fcCurve_segments_length values grid
      (fcTangent (fnOf values) (fnOf grid) values.length)
    have hspos : 0 < (fcCurve values grid
        (fcTangent (fnOf values) (fnOf grid) values.length)).segments.length := by
      omega
    have hsne : (fcCurve values grid
        (fcTangent (fnOf values) (fnOf grid) values.length)).segments ≠ [] :=
      List.length_pos.mp hspos
    have hlen2 : grid.length = (fcCurve values grid
        (fcTangent (fnOf values) (fnOf grid) values.length)).segments.length + 1 := by
      omega
    have hhead : (fcCurve values grid
        (fcTangent (fnOf values) (fnOf grid) values.length)).segments.head hsne
        = fcSegment (fnOf values) (fnOf grid)
            (fcTangent (fnOf values) (fnOf grid) values.length) 0 := by
      rw [List.head_eq_getElem_zero hsne]
      exact fcCurve_seg_get hspos
    have hsub : (fcCurve values grid
        (fcTangent (fnOf values) (fnOf grid) values.length)).segments.length - 1
        < (fcCurve values grid
        (fcTangent (fnOf values) (fnOf grid) values.length)).segments.length := by
      omega
    have hlast : (fcCurve values grid
        (fcTangent (fnOf values) (fnOf grid) values.length)).segments.getLast hsne
        = fcSegment (fnOf values) (fnOf grid)
            (fcTangent (fnOf values) (fnOf grid) values.length)
            ((fcCurve values grid
              (fcTangent (fnOf values) (fnOf grid) values.length)).segments.length
                - 1) := by
      rw [← List.get_length_sub_one hsub]
      exact fcCurve_seg_get hsub
    have hl : hornerEval ((fcCurve values grid
        (fcTangent (fnOf values) (fnOf grid) values.length)).segments.head hsne)
        (0 : ℝ) ≤ v := by
      rw [hhead, fcSegment_eval_zero]
      exact hv1
    have hr : v ≤ hornerEval ((fcCurve values grid
        (fcTangent (fnOf values) (fnOf grid) values.length)).segments.getLast hsne)
        (1 : ℝ) := by
      rw [hlast, fcSegment_eval_one]
      have hidx : (fcCurve values grid
          (fcTangent (fnOf values) (fnOf grid) values.length)).segments.length - 1 + 1
          = values.length - 1 := by
        omega
      rw [hidx]
      exact hv2
    obtain ⟨t, ht0, ht1, htv⟩ := evalSegs_surj
      (fcCurve values grid
        (fcTangent (fnOf values) (fnOf grid) values.length)).segments
      grid 0 v hsne hlen2 hg
      (fcCurve_agree values grid (fcTangent (fnOf values) (fnOf grid) values.length))
      hl hr
    have hb1 : gridFirst (fcCurve values grid
        (fcTangent (fnOf values) (fnOf grid) values.length)) ≤ t := by
      rw [fcCurve_gridFirst]
      exact ht0
    have hb2 : t ≤ gridLast (fcCurve values grid
        (fcTangent (fnOf values) (fnOf grid) values.length)) := by
      rw [fcCurve_gridLast]
      exact ht1
    refine ⟨t, ?_, ?_, ?_⟩
    · rw [hinner]
      exact hb1
    · rw [hinner]
      exact hb2
    · rw [hinner, evaluate_of_mem hb1 hb2]
      exact htv

/-- Witness for C6: for the monotone spline through values 0 and 1 on grid
0, 1 over the reals, the inverse lookup solvability of the query 1/2 is
equivalent to 1/2 lying between the first and last input values. -/
theorem C6_witness :
    asdf_monotonecubic (K := ℝ) [0, 1] [0, 1] = .ok (mcBuilt [0, 1] [0, 1]) ∧
    (GetTimeOk (mcBuilt (K := ℝ) [0, 1] [0, 1]) (1 / 2) ↔
      fnOf ([0, 1] : List ℝ) 0 ≤ 1 / 2 ∧
        (1 / 2 : ℝ) ≤ fnOf ([0, 1] : List ℝ) (([0, 1] : List ℝ).length - 1)) := by
  have h1 : StrictGrid ([0, 1] : List ℝ) := by
    simp [StrictGrid, List.chain'_cons, List.chain'_singleton]
  have hok := mc_ok_intro h1 rfl (le_refl 2) h1
  have hmc : asdf_monotonecubic (K := ℝ) [0, 1] [0, 1]
      = .ok (mcBuilt [0, 1] [0, 1]) := by
    rw [hok]
    unfold mcBuilt
    rw [okOr_ok hok]
  exact ⟨hmc, C6_get_time_output_range hmc (1 / 2)⟩

/-- C7: for every successfully built Animation Spline, at each vertex with a
target speed the time-map slope there (the derivative of the geometric
parameter with respect to wall-clock time, which the construction realizes
unclamped because the monotonicity guards passed) multiplied by the local
curve speed equals the requested speed; and whenever no slope compatible with
monotonicity exists (the infeasibility predicate holds at some vertex),
construction fails with a non-empty error message instead of returning a
handle. -/
theorem C7_animation_speed_constraint {K V : Type} [LinearOrderedField K]
    [AddCommGroup V] [Module K V] :
    (∀ (rt : K → K) (sqd : V → V → K) (positions : List V) (times : List K)
        (speeds : List (Option K)) (tcb : List (K × K × K)) (closed : Bool)
        (s : AsdfSpline K V),
      asdf_asdfspline rt sqd positions times speeds tcb closed = .ok s →
      ∀ i, i < times.length → ∀ v, speeds.getD i none = some v →
        animSlope rt sqd positions tcb closed times speeds i
            * animVertexSpeed rt sqd positions tcb closed i = v ∧
        (0 < i →
          clampSlope (animSlope rt sqd positions tcb closed times speeds i)
              (fcSecant (fnOf (kbCurve rt sqd positions tcb closed).grid)
                (fnOf times) (i - 1))
            = animSlope rt sqd positions tcb closed times speeds i) ∧
        (i < times.length - 1 →
          clampSlope (animSlope rt sqd positions tcb closed times speeds i)
              (fcSecant (fnOf (kbCurve rt sqd positions tcb closed).grid)
                (fnOf times) i)
            = animSlope rt sqd positions tcb closed times speeds i)) ∧
    (∀ (rt : K → K) (sqd : V → V → K) (positions : List V) (times : List K)
        (speeds : List (Option K)) (tcb : List (K × K × K)) (closed : Bool)
        (i : ℕ), i < times.length →
      animBad rt sqd positions tcb closed times speeds i = true →
      ∃ m, asdf_asdfspline rt sqd positions times speeds tcb closed
        = .error m ∧ m ≠ "") := by
  constructor
  · intro rt sqd positions times speeds tcb closed s h i hit v hv
    obtain ⟨path, hkb, hlent, hlens, hst, hany, hseq⟩ := anim_ok_elim h
    have hbf : animBad rt sqd positions tcb closed times speeds i = false := by
      rcases Bool.eq_false_or_eq_true
          (animBad rt sqd positions tcb closed times speeds i) with hb | hb
      · exfalso
        have hbt : (List.range times.length).any
            (animBad rt sqd positions tcb closed times speeds) = true :=
          List.any_eq_true.mpr ⟨i, List.mem_range.mpr hit, hb⟩
        rw [hany] at hbt
        exact Bool.noConfusion hbt
      · exact hb
    unfold animBad at hbf
    rw [hv] at hbf
    simp only [Bool.or_eq_false_iff, Bool.and_eq_false_iff,
      decide_eq_false_iff_not, not_and, not_lt, not_le] at hbf
    obtain ⟨⟨⟨h1, h2⟩, h3⟩, h4⟩ := hbf
    have hs : animSlope rt sqd positions tcb closed times speeds i
        = v / animVertexSpeed rt sqd positions tcb closed i := by
      unfold animSlope
      rw [hv]
    refine ⟨?_, ?_, ?_⟩
    · by_cases hn : animVertexSpeed rt sqd positions tcb closed i = 0
      · have hv0 : v = 0 := not_ne_iff.mp (h1 hn)
        rw [hs, hn, hv0]
        simp
      · rw [hs]
        exact div_mul_cancel₀ v hn
    · intro hip
      rcases h3 with hcase | hcase
      · exact absurd hip (by simpa using hcase)
      · exact clampSlope_id h2 (by simpa using hcase)
    · intro hip
      rcases h4 with hcase | hcase
      · exact absurd hip (by simpa using hcase)
      · exact clampSlope_id h2 (by simpa using hcase)
  · intro rt sqd positions times speeds tcb closed i hit hbad
    unfold asdf_asdfspline
    cases hkb : asdf_centripetalkochanekbartelsspline rt sqd positions tcb closed with
    | error e => exact ⟨e, rfl, kb_error_ne hkb⟩
    | ok path =>
      dsimp only
      split_ifs with h1 h2 h3 h4
      · exact ⟨_, rfl, by decide⟩
      · exact ⟨_, rfl, by decide⟩
      · exact ⟨_, rfl, by decide⟩
      · exact absurd (List.any_eq_true.mpr ⟨i, List.mem_range.mpr hit, hbad⟩) h4
      · exact ⟨_, rfl, by decide⟩

/-- Witness for C7: over the rationals, with unit chord metric and a requested
unit speed at the first vertex the animation spline builds and realizes the
speed; with a requested negative speed the required slope is negative and the
build fails. -/
theorem C7_witness :
    (animSlope (K := ℚ) (V := ℚ) id (fun _ _ => 1) [0, 1] [(0, 0, 0), (0, 0, 0)]
          false [0, 1] [some 1, none] 0
        * animVertexSpeed (K := ℚ) (V := ℚ) id (fun _ _ => 1) [0, 1]
          [(0, 0, 0), (0, 0, 0)] false 0 = 1 ∧
      ((0 : ℕ) < 0 →
        clampSlope (animSlope (K := ℚ) (V := ℚ) id (fun _ _ => 1) [0, 1]
            [(0, 0, 0), (0, 0, 0)] false [0, 1] [some 1, none] 0)
            (fcSecant (fnOf (kbCurve (K := ℚ) (V := ℚ) id (fun _ _ => 1) [0, 1]
                [(0, 0, 0), (0, 0, 0)] false).grid)
              (fnOf ([0, 1] : List ℚ)) (0 - 1))
          = animSlope (K := ℚ) (V := ℚ) id (fun _ _ => 1) [0, 1]
            [(0, 0, 0), (0, 0, 0)] false [0, 1] [some 1, none] 0) ∧
      ((0 : ℕ) < ([0, 1] : List ℚ).length - 1 →
        clampSlope (animSlope (K := ℚ) (V := ℚ) id (fun _ _ => 1) [0, 1]
            [(0, 0, 0), (0, 0, 0)] false [0, 1] [some 1, none] 0)
            (fcSecant (fnOf (kbCurve (K := ℚ) (V := ℚ) id (fun _ _ => 1) [0, 1]
                [(0, 0, 0), (0, 0, 0)] false).grid)
              (fnOf ([0, 1] : List ℚ)) 0)
          = animSlope (K := ℚ) (V := ℚ) id (fun _ _ => 1) [0, 1]
            [(0, 0, 0), (0, 0, 0)] false [0, 1] [some 1, none] 0)) ∧
    (∃ m, asdf_asdfspline (K := ℚ) (V := ℚ) id (fun _ _ => 1) [0, 1] [0, 1]
        [some (-1), none] [(0, 0, 0), (0, 0, 0)] false = .error m ∧ m ≠ "") := by
  have hisok : (asdf_asdfspline (K := ℚ) (V := ℚ) id (fun _ _ => 1) [0, 1] [0, 1]
      [some 1, none] [(0, 0, 0), (0, 0, 0)] false).isOk = true := by
    norm_num [asdf_asdfspline, asdf_centripetalkochanekbartelsspline, kbCurve,
      kbSpacings, listFn, listFnFrom, vtx, centripetalSpacing, cumsumFrom,
      StrictGrid, Except.isOk, Except.toBool, animBad, animSlope,
      animVertexSpeed, fcSecant, fnOf, List.range_succ]
  obtain ⟨x, hx⟩ := isOk_exists hisok
  have hbad : animBad (K := ℚ) (V := ℚ) id (fun _ _ => 1) [0, 1]
      [(0, 0, 0), (0, 0, 0)] false [0, 1] [some (-1), none] 0 = true := by
    norm_num [animBad, animSlope, animVertexSpeed]
  exact ⟨(C7_animation_speed_constraint (K := ℚ) (V := ℚ)).1 id (fun _ _ => 1)
      [0, 1] [0, 1] [some 1, none] [(0, 0, 0), (0, 0, 0)] false x hx 0
      (by decide) 1 (by decide),
    (C7_animation_speed_constraint (K := ℚ) (V := ℚ)).2 id (fun _ _ => 1)
      [0, 1] [0, 1] [some (-1), none] [(0, 0, 0), (0, 0, 0)] false 0
      (by decide) hbad⟩

end InterpolationClaims

